import Mathlib

/-!
Gokapi CLI uploader, argument resolution: `cmd/cli-uploader/cliflags/cliflags.go`.

A shallow embedding of the package `cliflags` and theorems about it.

Conventions of the embedding

* A Go `string` is a Lean `String` (valid UTF-8 text); `os.Args` is a `List String`
  passed explicitly.
* The functions of the Go standard library that the package calls (`strconv.Atoi`,
  `filepath.Base`, `filepath.Clean`, `filepath.Join`, `strings.TrimSpace`,
  `unicode.IsSpace`, `Regexp.ReplaceAllString`) are embedded from their Go sources, for a
  platform whose path separator is `/`.
* A Go `int` is an `Int`; `strconv.Atoi` rejects everything outside the 64-bit range,
  and the code does no arithmetic on the parsed values, so nothing can overflow.
* `os.Exit(code)` ends the run: a function that may call it returns an `Outcome`,
  either `ret v` (control comes back with `v`) or `exit code`.
* Text written with `fmt.Println` is not part of the model.
* The functions and constants of the packages `environment` and `cliconstants`, and the
  content of the file system, are the fields of `Env`.
-/

namespace cliflags

/-! ## Process outcome -/

/-- Result of running a function that may call `os.Exit`. -/
inductive Outcome (α : Type) where
  | ret : α → Outcome α
  | exit : Int → Outcome α
  deriving DecidableEq, Repr

/-- Sequencing: a terminated process runs nothing further. -/
def Outcome.bind {α β : Type} (x : Outcome α) (f : α → Outcome β) : Outcome β :=
  match x with
  | .ret a => f a
  | .exit c => .exit c

instance : Monad Outcome where
  pure := Outcome.ret
  bind := Outcome.bind

/-! ## Data model -/

def ModeLogin : Int := 0
def ModeLogout : Int := 1
def ModeUpload : Int := 2
def ModeArchive : Int := 3
def ModeInvalid : Int := 4

/-- The parameters for the upload command; a fresh `UploadConfig{}` has every field at
its zero value. -/
structure UploadConfig where
  File : String := ""
  Directory : String := ""
  TmpFolder : String := ""
  FileName : String := ""
  JsonOutput : Bool := false
  DisableE2e : Bool := false
  ExpiryDays : Int := 0
  ExpiryDownloads : Int := 0
  Password : String := ""
  deriving DecidableEq, Repr

/-- One entry of a directory listing: `entry.Name()` and `entry.Type().IsRegular()`. -/
structure DirEntry where
  Name : String
  IsRegular : Bool
  deriving DecidableEq, Repr

/-- What the package reads from outside: `environment.IsDockerInstance()`, the result of
`os.ReadDir` on a path (`none` when it returns an error), and the constants of
`cliconstants`. -/
structure Env where
  IsDockerInstance : Bool
  ReadDir : String → Option (List DirEntry)
  DockerFolderUpload : String
  DockerFolderConfigFile : String
  DefaultConfigFileName : String

/-! ## Usage and mode dispatch -/

/-- The function `printUsage(exitCode)`: prints the usage text and calls `os.Exit(exitCode)`. -/
def printUsage (exitCode : Int) : Outcome Unit :=
  .exit exitCode

/-- The function `Parse()`, on `os.Args = args`. -/
def Parse (args : List String) : Outcome Int :=
  if args.length < 2 then do
    printUsage 3
    return ModeInvalid
  else
    let arg := args.getD 1 ""
    if arg = "login" then .ret ModeLogin
    else if arg = "logout" then .ret ModeLogout
    else if arg = "upload" then .ret ModeUpload
    else if arg = "upload-dir" then .ret ModeArchive
    else if arg = "help" then do
      printUsage 0
      return ModeInvalid
    else do
      printUsage 3
      return ModeInvalid

/-! ## `strconv.Atoi` -/

/-- Width of the Go type `int` (64-bit platforms). -/
def intSize : Nat := 64

/-- An ASCII decimal digit. -/
def isDigit (c : Char) : Bool :=
  decide ('0' ≤ c) && decide (c ≤ '9')

/-- Value of a digit string read left to right in base 10. -/
def digitsValue (ds : List Char) : Nat :=
  ds.foldl (fun acc c => 10 * acc + (c.toNat - 48)) 0

/-- The function `strconv.Atoi`: an optional sign `+` or `-`, then one or more decimal
digits, and the value must fit in an `int`; `none` stands for a non-nil `err`. -/
def Atoi (s : String) : Option Int :=
  let signed := s.data.head? = some '-' ∨ s.data.head? = some '+'
  let neg := s.data.head? = some '-'
  let ds := if signed then s.data.tail else s.data
  if ds = [] ∨ ds.all isDigit = false then none
  else
    let un := digitsValue ds
    if ¬ neg ∧ un ≥ 2 ^ (intSize - 1) then none
    else if neg ∧ un > 2 ^ (intSize - 1) then none
    else some (if neg then - (un : Int) else (un : Int))

/-! ## Upload parameter parser -/

/-- The function `getParameter(position *int)`. It computes `newPosition := *position + 1`
and then rebinds its own pointer (`position = &newPosition`); the caller's variable is
never written. The second component of the result is the caller's cursor after the call,
which is therefore the cursor it passed in. -/
def getParameter (args : List String) (position : Nat) : Outcome (String × Nat) :=
  let newPosition := position + 1
  if newPosition ≥ args.length then do
    printUsage 3
    return (args.getD newPosition "", position)
  else .ret (args.getD newPosition "", position)

/-- The function `requireInt(input)`. -/
def requireInt (input : String) : Outcome Int :=
  match Atoi input with
  | none => .exit 2
  | some result => .ret result

/-- The `case` clauses of the `switch os.Args[i]` in `GetUploadParameters`, and `noCase`
for a token that matches no label (the `switch` has no `default`). -/
inductive Case where
  | json | disableE2e | file | expiryDays | expiryDownloads
  | password | directory | tempfolder | name | help | noCase
  deriving DecidableEq, Repr

/-- The clause of the `switch` selected by a token: each clause has a short label that
falls through to the long one. -/
def switchCase (arg : String) : Case :=
  if arg = "-j" ∨ arg = "--json" then .json
  else if arg = "-x" ∨ arg = "--disable-e2e" then .disableE2e
  else if arg = "-f" ∨ arg = "--file" then .file
  else if arg = "-e" ∨ arg = "--expiry-days" then .expiryDays
  else if arg = "-d" ∨ arg = "--expiry-downloads" then .expiryDownloads
  else if arg = "-p" ∨ arg = "--password" then .password
  else if arg = "-D" ∨ arg = "--directory" then .directory
  else if arg = "-t" ∨ arg = "--tempfolder" then .tempfolder
  else if arg = "-n" ∨ arg = "--name" then .name
  else if arg = "-h" ∨ arg = "--help" then .help
  else .noCase

/-- Body of the `for` loop of `GetUploadParameters`: the `switch os.Args[i]` at cursor `i`.
Returns the cursor and the config after the body. -/
def scanStep (args : List String) (i : Nat) (result : UploadConfig) :
    Outcome (Nat × UploadConfig) :=
  match switchCase (args.getD i "") with
  | .json => .ret (i, { result with JsonOutput := true })
  | .disableE2e => .ret (i, { result with DisableE2e := true })
  | .file => do
    let (v, i) ← getParameter args i
    return (i, { result with File := v })
  | .expiryDays => do
    let (v, i) ← getParameter args i
    let n ← requireInt v
    return (i, { result with ExpiryDays := n })
  | .expiryDownloads => do
    let (v, i) ← getParameter args i
    let n ← requireInt v
    return (i, { result with ExpiryDownloads := n })
  | .password => do
    let (v, i) ← getParameter args i
    return (i, { result with Password := v })
  | .directory => do
    let (v, i) ← getParameter args i
    return (i, { result with Directory := v })
  | .tempfolder => do
    let (v, i) ← getParameter args i
    return (i, { result with TmpFolder := v })
  | .name => do
    let (v, i) ← getParameter args i
    return (i, { result with FileName := v })
  | .help => do
    printUsage 0
    return (i, result)
  | .noCase => .ret (i, result)

/-- The loop `for i := 2; i < len(os.Args); i++`, started at cursor `i`; `fuel` bounds the
number of iterations and `len(os.Args) - i` is always enough. -/
def scanLoop (args : List String) : Nat → Nat → UploadConfig → Outcome UploadConfig
  | 0, _, result => .ret result
  | fuel + 1, i, result =>
    if i < args.length then
      match scanStep args i result with
      | .exit c => .exit c
      | .ret (j, r) => scanLoop args fuel (j + 1) r
    else .ret result


/-! ## Filename sanitiser -/

/-- The function `filepath.Base` (separator `/`): `.` for the empty path; otherwise
trailing separators are stripped, the part after the last separator is kept, and a path
that is empty by then (it held only separators) gives `/`. -/
def Base (path : String) : String :=
  if path = "" then "."
  else
    let stripped := path.data.rdropWhile (fun c => c == '/')
    let last := stripped.rtakeWhile (fun c => c != '/')
    if last = [] then "/" else String.mk last

/-- The function `unicode.IsSpace`: the code points with the property White_Space. -/
def isSpace (c : Char) : Bool :=
  let n := c.toNat
  (0x09 ≤ n && n ≤ 0x0D) || n == 0x20 || n == 0x85 || n == 0xA0 || n == 0x1680 ||
  (0x2000 ≤ n && n ≤ 0x200A) || n == 0x2028 || n == 0x2029 || n == 0x202F ||
  n == 0x205F || n == 0x3000

/-- The function `strings.TrimSpace`: leading and trailing white space removed. -/
def TrimSpace (s : String) : String :=
  String.mk ((s.data.dropWhile isSpace).rdropWhile isSpace)

/-- A character matched by the class `[<>:"/\\|?*\x00-\x1F]`; the double quote is
code point 34 and the backslash is code point 92. -/
def isIllegalChar (c : Char) : Bool :=
  c == '<' || c == '>' || c == ':' || c.toNat == 34 || c == '/' || c.toNat == 92 ||
  c == '|' || c == '?' || c == '*' || decide (c.toNat ≤ 0x1F)

/-- The replacement text for one character: an underscore for a match of the class, the
character itself otherwise. -/
def replaceChar (c : Char) : Char :=
  if isIllegalChar c then '_' else c

/-- The call `illegalChars.ReplaceAllString(s, "_")`: every match of the class is one
character, and each is replaced by an underscore. -/
def replaceIllegal (s : String) : String :=
  String.mk (s.data.map replaceChar)

/-- The function `sanitiseFilename(config)`; the updated config is returned. -/
def sanitiseFilename (config : UploadConfig) : UploadConfig :=
  if config.FileName = "" then config
  else
    let config := { config with FileName := Base config.FileName }
    let config := { config with FileName := TrimSpace config.FileName }
    { config with FileName := replaceIllegal config.FileName }

/-- Effect of `sanitiseFilename` on the field `FileName`, every other field at its zero
value. -/
def Sanitize (name : String) : String :=
  (sanitiseFilename { FileName := name }).FileName

/-! ## `filepath.Clean` and `filepath.Join` -/

/-- Backtracking of `Clean` at a `..` element: from write index `w + 1`, after the first
decrement, keep decrementing while the index is above `dotdot` and the byte there is not a
separator. The argument is the index after the first decrement. -/
def backtrackTo (out : List Char) (dotdot : Nat) : Nat → Nat
  | 0 => 0
  | w + 1 =>
    if w + 1 > dotdot ∧ out.getD (w + 1) ' ' ≠ '/' then backtrackTo out dotdot w
    else w + 1

/-- Main loop of `filepath.Clean`: `rest` is the unread part of the path, `out` the bytes
written so far, `dotdot` the index in `out` where `..` must stop. Every iteration reads at
least one byte, so `fuel = rest.length` is enough. -/
def cleanLoop (rooted : Bool) : Nat → List Char → List Char → Nat → List Char
  | 0, _, out, _ => out
  | fuel + 1, rest, out, dotdot =>
    match rest with
    | [] => out
    | c :: t =>
      if c = '/' then
        cleanLoop rooted fuel t out dotdot
      else if c = '.' ∧ (t = [] ∨ t.head? = some '/') then
        cleanLoop rooted fuel t out dotdot
      else if c = '.' ∧ t.head? = some '.' ∧ (t.tail = [] ∨ t.tail.head? = some '/') then
        if out.length > dotdot then
          cleanLoop rooted fuel t.tail (out.take (backtrackTo out dotdot (out.length - 1))) dotdot
        else if !rooted then
          let out1 := if out.length > 0 then out ++ ['/'] else out
          let out2 := out1 ++ ['.', '.']
          cleanLoop rooted fuel t.tail out2 out2.length
        else
          cleanLoop rooted fuel t.tail out dotdot
      else
        let out1 :=
          if (rooted && out.length != 1) || (!rooted && out.length != 0) then out ++ ['/']
          else out
        cleanLoop rooted fuel (rest.dropWhile (fun x => x != '/'))
          (out1 ++ rest.takeWhile (fun x => x != '/')) dotdot

/-- The function `filepath.Clean` (separator `/`, no volume names). -/
def Clean (path : String) : String :=
  if path = "" then "."
  else
    let rooted := path.data.head? = some '/'
    let out :=
      if rooted then cleanLoop true path.data.length path.data.tail ['/'] 1
      else cleanLoop false path.data.length path.data [] 0
    if out.length = 0 then "." else String.mk out

/-- The call `filepath.Join(a, b)`: from the first non-empty element on, the elements are
joined with `/` and the result is cleaned; no non-empty element gives the empty string. -/
def Join (a b : String) : String :=
  if a ≠ "" then Clean (a ++ "/" ++ b)
  else if b ≠ "" then Clean b
  else ""

/-! ## Container auto-discovery and requirement check -/

/-- The `for _, entry := range entries` loop of `getDockerUpload` together with the code
after it, from the loop variables `fileName` and `fileWasFound`. -/
def scanEntries (env : Env) (isArchive : Bool) : List DirEntry → String → Bool → Bool × String
  | [], fileName, fileWasFound =>
    if !fileWasFound then (false, "")
    else (true, Join env.DockerFolderUpload fileName)
  | entry :: rest, fileName, fileWasFound =>
    if entry.IsRegular then
      if isArchive then (true, env.DockerFolderUpload)
      else if fileWasFound then (false, "")
      else scanEntries env isArchive rest entry.Name true
    else scanEntries env isArchive rest fileName fileWasFound

/-- The function `getDockerUpload(isArchive)`. -/
def getDockerUpload (env : Env) (isArchive : Bool) : Bool × String :=
  if !env.IsDockerInstance then (false, "")
  else
    match env.ReadDir env.DockerFolderUpload with
    | none => (false, "")
    | some entries => scanEntries env isArchive entries "" false

/-- The function `checkRequiredUploadParameter(config, isArchive)`; returns the boolean
result and the config as left behind the pointer. -/
def checkRequiredUploadParameter (env : Env) (config : UploadConfig) (isArchive : Bool) :
    Bool × UploadConfig :=
  if isArchive && config.Directory != "" then (true, config)
  else if !isArchive && config.File != "" then (true, config)
  else if !env.IsDockerInstance then (false, config)
  else
    let (ok, uploadPath) := getDockerUpload env isArchive
    if !ok then (false, config)
    else if isArchive then (true, { config with File := env.DockerFolderUpload })
    else (true, { config with File := uploadPath })

/-- The function `GetUploadParameters(isArchive)`, on `os.Args = args`. -/
def GetUploadParameters (env : Env) (args : List String) (isArchive : Bool) :
    Outcome UploadConfig := do
  let result ← scanLoop args (args.length - 2) 2 {}
  let result :=
    if result.ExpiryDownloads < 0 then { result with ExpiryDownloads := 0 } else result
  let result :=
    if result.ExpiryDays < 0 then { result with ExpiryDays := 0 } else result
  let result := sanitiseFilename result
  let (ok, result) := checkRequiredUploadParameter env result isArchive
  if !ok then .exit 2
  else return result

/-! ## Configuration file location -/

/-- The loop of `GetConfigLocation`, started at cursor `i`: `some` is the value returned
from inside the loop, `none` means the loop ran to its end. -/
def configLoop (args : List String) : Nat → Nat → Outcome (Option (String × Bool))
  | 0, _ => .ret none
  | fuel + 1, i =>
    if i < args.length then
      let arg := args.getD i ""
      if arg = "-c" ∨ arg = "--configuration" then do
        let (v, _) ← getParameter args i
        return some (v, false)
      else configLoop args fuel (i + 1)
    else .ret none

/-- The function `GetConfigLocation()`, on `os.Args = args`. -/
def GetConfigLocation (env : Env) (args : List String) : Outcome (String × Bool) := do
  match ← configLoop args (args.length - 2) 2 with
  | some found => return found
  | none =>
    if env.IsDockerInstance then return (env.DockerFolderConfigFile, true)
    else return (env.DefaultConfigFileName, true)

/-- The case labels of the `switch` in `GetUploadParameters`. -/
def recognisedFlags : List String :=
  ["-j", "--json", "-x", "--disable-e2e", "-f", "--file", "-e", "--expiry-days",
   "-d", "--expiry-downloads", "-p", "--password", "-D", "--directory",
   "-t", "--tempfolder", "-n", "--name", "-h", "--help"]

/-- The field the requirement check looks at first: `Directory` in archive mode, `File`
in single-file mode. -/
def requiredField (config : UploadConfig) (isArchive : Bool) : String :=
  if isArchive then config.Directory else config.File

/-- The config of `GetUploadParameters` between the scan and the requirement check: both
expiry fields clamped at 0, then the file name sanitised. -/
def afterScan (result : UploadConfig) : UploadConfig :=
  let result :=
    if result.ExpiryDownloads < 0 then { result with ExpiryDownloads := 0 } else result
  let result :=
    if result.ExpiryDays < 0 then { result with ExpiryDays := 0 } else result
  sanitiseFilename result

/-- The case labels of the clauses that call `getParameter`. -/
def valueFlags : List String :=
  ["-f", "--file", "-e", "--expiry-days", "-d", "--expiry-downloads", "-p", "--password",
   "-D", "--directory", "-t", "--tempfolder", "-n", "--name"]

/-- The loop body of `GetUploadParameters` seen from the tokens it reads: `tok` is
`os.Args[i]` and `next` is `os.Args[i+1]`, `none` when `i` is the last index. The theorem
`scanStep_eq_tokenStep` states that this is `scanStep`. -/
def tokenStep (tok : String) (next : Option String) (result : UploadConfig) :
    Outcome UploadConfig :=
  match switchCase tok, next with
  | .json, _ => .ret { result with JsonOutput := true }
  | .disableE2e, _ => .ret { result with DisableE2e := true }
  | .help, _ => .exit 0
  | .noCase, _ => .ret result
  | _, none => .exit 3
  | .file, some v => .ret { result with File := v }
  | .expiryDays, some v => do
    let n ← requireInt v
    return { result with ExpiryDays := n }
  | .expiryDownloads, some v => do
    let n ← requireInt v
    return { result with ExpiryDownloads := n }
  | .password, some v => .ret { result with Password := v }
  | .directory, some v => .ret { result with Directory := v }
  | .tempfolder, some v => .ret { result with TmpFolder := v }
  | .name, some v => .ret { result with FileName := v }

/-- The scan of `GetUploadParameters` seen from the list of tokens still to be read. The
theorem `scanLoop_eq_scanTokens` states that this is `scanLoop`. -/
def scanTokens : List String → UploadConfig → Outcome UploadConfig
  | [], result => .ret result
  | tok :: rest, result => tokenStep tok rest.head? result >>= scanTokens rest

/-! ## Theorems -/

/-! ### Outcome sequencing -/

@[simp] theorem bind_ret {α β : Type} (a : α) (f : α → Outcome β) :
    (Outcome.ret a >>= f) = f a := rfl

@[simp] theorem bind_exit {α β : Type} (c : Int) (f : α → Outcome β) :
    ((Outcome.exit c : Outcome α) >>= f) = Outcome.exit c := rfl

@[simp] theorem pure_eq_ret {α : Type} (a : α) : (pure a : Outcome α) = Outcome.ret a := rfl

/-! ### Mode dispatcher -/

/-- C9. `Parse` looks only at the argument at index 1 and compares it literally: it
returns `ModeLogin`, `ModeLogout`, `ModeUpload`, `ModeArchive` exactly when that argument
is `login`, `logout`, `upload`, `upload-dir`; on `help` the process exits with 0; with no
argument at index 1 or any other token there it exits with 3, and no other value is ever
returned (in particular never `ModeInvalid`). -/
theorem Parse_dispatch (args : List String) :
    (Parse args = .ret ModeLogin ↔ args[1]? = some "login") ∧
    (Parse args = .ret ModeLogout ↔ args[1]? = some "logout") ∧
    (Parse args = .ret ModeUpload ↔ args[1]? = some "upload") ∧
    (Parse args = .ret ModeArchive ↔ args[1]? = some "upload-dir") ∧
    (args[1]? = some "help" → Parse args = .exit 0) ∧
    (args[1]? = none → Parse args = .exit 3) ∧
    (∀ tok, args[1]? = some tok → tok ≠ "login" → tok ≠ "logout" → tok ≠ "upload" →
      tok ≠ "upload-dir" → tok ≠ "help" → Parse args = .exit 3) ∧
    (∀ m, Parse args = .ret m →
      m = ModeLogin ∨ m = ModeLogout ∨ m = ModeUpload ∨ m = ModeArchive) ∧
    (∀ other : List String, other[1]? = args[1]? → Parse other = Parse args) := by
  have key : ∀ l : List String, Parse l =
      match l[1]? with
      | none => .exit 3
      | some tok =>
        if tok = "login" then .ret ModeLogin
        else if tok = "logout" then .ret ModeLogout
        else if tok = "upload" then .ret ModeUpload
        else if tok = "upload-dir" then .ret ModeArchive
        else if tok = "help" then .exit 0
        else .exit 3 := by
    intro l
    unfold Parse
    by_cases hlen : l.length < 2
    · have hnone : l[1]? = none := List.getElem?_eq_none (by omega)
      simp [hlen, hnone, printUsage]
    · have hsome : l[1]? = some (l.getD 1 "") := by
        rw [List.getD_eq_getElem?_getD, List.getElem?_eq_getElem (by omega)]
        simp
      simp only [hlen, if_false, hsome]
      split_ifs <;> simp [printUsage]
  rw [key args]
  refine ⟨?_, ?_, ?_, ?_, ?_, ?_, ?_, ?_, ?_⟩
  · cases h : args[1]? with
    | none => simp
    | some tok =>
      simp only [Option.some.injEq]
      split_ifs with h1 h2 h3 h4 h5 <;> simp_all [ModeLogin, ModeLogout, ModeUpload, ModeArchive]
  · cases h : args[1]? with
    | none => simp
    | some tok =>
      simp only [Option.some.injEq]
      split_ifs with h1 h2 h3 h4 h5 <;> simp_all [ModeLogin, ModeLogout, ModeUpload, ModeArchive]
  · cases h : args[1]? with
    | none => simp
    | some tok =>
      simp only [Option.some.injEq]
      split_ifs with h1 h2 h3 h4 h5 <;> simp_all [ModeLogin, ModeLogout, ModeUpload, ModeArchive]
  · cases h : args[1]? with
    | none => simp
    | some tok =>
      simp only [Option.some.injEq]
      split_ifs with h1 h2 h3 h4 h5 <;> simp_all [ModeLogin, ModeLogout, ModeUpload, ModeArchive]
  · intro h
    simp [h]
  · intro h
    simp [h]
  · intro tok h h1 h2 h3 h4 h5
    simp [h, h1, h2, h3, h4, h5]
  · intro m
    cases h : args[1]? with
    | none => simp
    | some tok =>
      simp only
      split_ifs <;> simp <;> intro hm <;> simp [← hm]
  · intro other h
    rw [key other, h]

/-- Witness for C9 at the argument list `prog frobnicate`. -/
theorem Parse_dispatch_witness :
    Parse ["prog", "frobnicate"] = .exit 3 ∧ Parse ["prog"] = .exit 3 ∧
    Parse ["prog", "help"] = .exit 0 ∧ Parse ["prog", "upload-dir"] = .ret ModeArchive :=
  ⟨(Parse_dispatch ["prog", "frobnicate"]).2.2.2.2.2.2.1 "frobnicate" rfl
      (by decide) (by decide) (by decide) (by decide) (by decide),
   (Parse_dispatch ["prog"]).2.2.2.2.2.1 rfl,
   (Parse_dispatch ["prog", "help"]).2.2.2.2.1 rfl,
   (Parse_dispatch ["prog", "upload-dir"]).2.2.2.1.mpr rfl⟩

/-! ### Filename sanitiser -/

theorem isIllegalChar_replaceChar (c : Char) : isIllegalChar (replaceChar c) = false := by
  unfold replaceChar
  by_cases h : isIllegalChar c = true
  · rw [if_pos h]; decide
  · rw [if_neg h]; simpa using h

theorem replaceChar_of_legal {c : Char} (h : isIllegalChar c = false) : replaceChar c = c := by
  simp [replaceChar, h]

theorem replaceChar_idem (c : Char) : replaceChar (replaceChar c) = replaceChar c :=
  replaceChar_of_legal (isIllegalChar_replaceChar c)

theorem isSpace_replaceChar {c : Char} (h : isSpace c = false) :
    isSpace (replaceChar c) = false := by
  unfold replaceChar
  split_ifs
  · decide
  · exact h

theorem replaceChar_ne_slash (c : Char) : replaceChar c ≠ '/' := by
  intro h
  have := isIllegalChar_replaceChar c
  rw [h] at this
  exact absurd this (by decide)

theorem replaceIllegal_data (s : String) :
    (replaceIllegal s).data = s.data.map replaceChar := rfl

theorem string_eq_empty_iff (s : String) : s = "" ↔ s.data = [] := by
  constructor
  · intro h; rw [h]
  · intro h; exact String.ext h

/-- The value of `Base` on a path that is not empty and has no separator is the path. -/
theorem Base_of_no_slash (s : String) (hne : s ≠ "") (hs : ∀ c ∈ s.data, c ≠ '/') :
    Base s = s := by
  have hd : s.data ≠ [] := fun h => hne ((string_eq_empty_iff s).mpr h)
  have h1 : s.data.rdropWhile (fun c => c == '/') = s.data := by
    rw [List.rdropWhile_eq_self_iff]
    intro hl
    simpa using hs _ (List.getLast_mem hl)
  have h2 : s.data.rtakeWhile (fun c => c != '/') = s.data := by
    rw [List.rtakeWhile_eq_self_iff]
    intro x hx
    simpa using hs x hx
  unfold Base
  simp only [hne, if_false, h1, h2, hd]

/-- The value of `Base` on `d/s`, for a last segment `s` that is not empty and has no
separator, is `s`. -/
theorem Base_append_segment (d s : String) (hne : s ≠ "") (hs : ∀ c ∈ s.data, c ≠ '/') :
    Base (d ++ "/" ++ s) = s := by
  have hd : s.data ≠ [] := fun h => hne ((string_eq_empty_iff s).mpr h)
  have hdata : (d ++ "/" ++ s).data = d.data ++ '/' :: s.data := by
    simp [String.data_append]
  have hne2 : d ++ "/" ++ s ≠ "" := by
    intro h
    have := congrArg String.data h
    rw [hdata] at this
    simp at this
  have h1 : (d.data ++ '/' :: s.data).rdropWhile (fun c => c == '/') =
      d.data ++ '/' :: s.data := by
    rw [List.rdropWhile_eq_self_iff]
    intro hl
    have hlast : (d.data ++ '/' :: s.data).getLast hl = s.data.getLast hd := by
      rw [List.getLast_append_of_ne_nil (List.cons_ne_nil _ _), List.getLast_cons hd]
    rw [hlast]
    simpa using hs _ (List.getLast_mem hd)
  have h2 : (d.data ++ '/' :: s.data).rtakeWhile (fun c => c != '/') = s.data := by
    unfold List.rtakeWhile
    have hall : ∀ a ∈ s.data.reverse, (fun c : Char => c != '/') a = true := by
      intro a ha
      simpa using hs a (List.mem_reverse.mp ha)
    rw [List.reverse_append, List.reverse_cons, List.append_assoc,
      List.takeWhile_append_of_pos hall]
    simp
  unfold Base
  simp only [hne2, if_false, hdata, h1, h2, hd]

theorem TrimSpace_data (s : String) :
    (TrimSpace s).data = (s.data.dropWhile isSpace).rdropWhile isSpace := rfl

/-- A string whose first and last characters are not white space is its own trim. -/
theorem TrimSpace_of_trimmed (s : String)
    (hfirst : ∀ c, s.data.head? = some c → isSpace c = false)
    (hlast : ∀ c, s.data.getLast? = some c → isSpace c = false) :
    TrimSpace s = s := by
  apply String.ext
  rw [TrimSpace_data]
  have h1 : s.data.dropWhile isSpace = s.data := by
    rw [List.dropWhile_eq_self_iff]
    intro hl
    have : s.data.head? = some (s.data[0]) := by
      rw [List.head?_eq_getElem?, List.getElem?_eq_getElem hl]
    simpa using hfirst _ this
  rw [h1, List.rdropWhile_eq_self_iff]
  intro hl
  simp [hlast _ (List.getLast?_eq_getLast _ hl)]

/-- The first character of a trimmed string is not white space. -/
theorem TrimSpace_head (s : String) (c : Char) (h : (TrimSpace s).data.head? = some c) :
    isSpace c = false := by
  rw [TrimSpace_data] at h
  obtain ⟨t, ht⟩ := List.rdropWhile_prefix isSpace (l := s.data.dropWhile isSpace)
  cases hz : (s.data.dropWhile isSpace).rdropWhile isSpace with
  | nil => rw [hz] at h; simp at h
  | cons a z =>
    rw [hz] at h ht
    simp only [List.head?_cons, Option.some.injEq] at h
    have hne : s.data.dropWhile isSpace ≠ [] := by
      rw [← ht]; simp
    have hhead := List.head_dropWhile_not isSpace s.data hne
    have : (s.data.dropWhile isSpace).head hne = a := by
      simp [← ht]
    rw [this, h] at hhead
    exact hhead

/-- The last character of a trimmed string is not white space. -/
theorem TrimSpace_last (s : String) (c : Char) (h : (TrimSpace s).data.getLast? = some c) :
    isSpace c = false := by
  rw [TrimSpace_data] at h
  have hne : (s.data.dropWhile isSpace).rdropWhile isSpace ≠ [] := by
    intro h0; rw [h0] at h; simp at h
  have hl := List.rdropWhile_last_not isSpace (s.data.dropWhile isSpace) hne
  rw [List.getLast?_eq_getLast _ hne] at h
  simp only [Option.some.injEq] at h
  rw [h] at hl
  simpa using hl

/-- A file name without illegal characters and without white space at either end is
left as it is by `sanitiseFilename`. -/
theorem sanitiseFilename_of_clean (config : UploadConfig)
    (hlegal : ∀ c ∈ config.FileName.data, isIllegalChar c = false)
    (hfirst : ∀ c, config.FileName.data.head? = some c → isSpace c = false)
    (hlast : ∀ c, config.FileName.data.getLast? = some c → isSpace c = false) :
    sanitiseFilename config = config := by
  unfold sanitiseFilename
  by_cases hne : config.FileName = ""
  · simp [hne]
  · have hslash : ∀ c ∈ config.FileName.data, c ≠ '/' := by
      intro c hc h
      have := hlegal c hc
      rw [h] at this
      exact absurd this (by decide)
    have hmap : replaceIllegal config.FileName = config.FileName := by
      apply String.ext
      rw [replaceIllegal_data]
      conv_rhs => rw [← List.map_id config.FileName.data]
      apply List.map_congr_left
      intro c hc
      simpa using replaceChar_of_legal (hlegal c hc)
    simp only [hne, if_false, Base_of_no_slash _ hne hslash,
      TrimSpace_of_trimmed _ hfirst hlast, hmap]

/-- The file name after `sanitiseFilename`, when the name given is not empty. -/
theorem sanitiseFilename_FileName (config : UploadConfig) (hne : config.FileName ≠ "") :
    (sanitiseFilename config).FileName =
      replaceIllegal (TrimSpace (Base config.FileName)) := by
  simp [sanitiseFilename, hne]

/-- Every character of the sanitised file name is outside the illegal class and the name
has no white space at either end. -/
theorem sanitiseFilename_clean (config : UploadConfig) :
    (∀ c ∈ (sanitiseFilename config).FileName.data, isIllegalChar c = false) ∧
    (∀ c, (sanitiseFilename config).FileName.data.head? = some c → isSpace c = false) ∧
    (∀ c, (sanitiseFilename config).FileName.data.getLast? = some c → isSpace c = false) := by
  by_cases hne : config.FileName = ""
  · have : sanitiseFilename config = config := by simp [sanitiseFilename, hne]
    rw [this, hne]
    simp
  · rw [sanitiseFilename_FileName config hne, replaceIllegal_data]
    refine ⟨?_, ?_, ?_⟩
    · intro c hc
      obtain ⟨a, _, rfl⟩ := List.mem_map.mp hc
      exact isIllegalChar_replaceChar a
    · intro c hc
      rw [List.head?_map] at hc
      cases hz : (TrimSpace (Base config.FileName)).data.head? with
      | none => rw [hz] at hc; simp at hc
      | some a =>
        rw [hz] at hc
        simp only [Option.map_some', Option.some.injEq] at hc
        rw [← hc]
        exact isSpace_replaceChar (TrimSpace_head _ a hz)
    · intro c hc
      rw [List.getLast?_map] at hc
      cases hz : (TrimSpace (Base config.FileName)).data.getLast? with
      | none => rw [hz] at hc; simp at hc
      | some a =>
        rw [hz] at hc
        simp only [Option.map_some', Option.some.injEq] at hc
        rw [← hc]
        exact isSpace_replaceChar (TrimSpace_last _ a hz)

theorem sanitiseFilename_idem (config : UploadConfig) :
    sanitiseFilename (sanitiseFilename config) = sanitiseFilename config := by
  obtain ⟨h1, h2, h3⟩ := sanitiseFilename_clean config
  exact sanitiseFilename_of_clean _ h1 h2 h3

/-- C4. The file name left by `sanitiseFilename` contains none of the characters
`<`, `>`, `:`, double quote, `/`, backslash, `|`, `?`, `*` and no character in the range
U+0000..U+001F, whatever the config it is applied to. -/
theorem sanitiseFilename_no_illegal (config : UploadConfig) (c : Char)
    (hc : c ∈ (sanitiseFilename config).FileName.data) :
    c ∉ ['<', '>', ':', Char.ofNat 34, '/', Char.ofNat 92, '|', '?', '*'] ∧
      0x1F < c.toNat := by
  have h := (sanitiseFilename_clean config).1 c hc
  simp only [isIllegalChar, Bool.or_eq_false_iff, beq_eq_false_iff_ne, ne_eq,
    decide_eq_false_iff_not, not_le] at h
  obtain ⟨⟨⟨⟨⟨⟨⟨⟨⟨h1, h2⟩, h3⟩, h4⟩, h5⟩, h6⟩, h7⟩, h8⟩, h9⟩, h10⟩ := h
  refine ⟨?_, h10⟩
  have h4c : c ≠ Char.ofNat 34 := fun e => h4 (by rw [e]; decide)
  have h6c : c ≠ Char.ofNat 92 := fun e => h6 (by rw [e]; decide)
  simp [h1, h2, h3, h4c, h5, h6c, h7, h8, h9]

/-- Witness for C4: the name `a<b` is sanitised to `a_b`, whose underscore is legal. -/
theorem sanitiseFilename_no_illegal_witness :
    '_' ∈ (sanitiseFilename { FileName := "a<b" }).FileName.data ∧
    ('_' ∉ ['<', '>', ':', Char.ofNat 34, '/', Char.ofNat 92, '|', '?', '*'] ∧
      0x1F < ('_' : Char).toNat) :=
  ⟨by decide, sanitiseFilename_no_illegal { FileName := "a<b" } '_' (by decide)⟩

/-- C5. The filename sanitiser is idempotent: sanitising a sanitised name changes
nothing, for every input name. -/
theorem Sanitize_idempotent (name : String) :
    Sanitize (Sanitize name) = Sanitize name := by
  unfold Sanitize
  have h := sanitiseFilename_idem { FileName := name }
  have hcfg : ({ FileName := (sanitiseFilename { FileName := name }).FileName } : UploadConfig)
      = sanitiseFilename { FileName := name } := by
    by_cases hne : name = ""
    · subst hne; rfl
    · simp [sanitiseFilename, hne]
  rw [hcfg, h]

/-- C6. The filename sanitiser strips directory components: for every string `d` and
every non-empty segment `s` without a `/`, the name `d/s` is sanitised to the same result
as `s`; the name `../../etc/passwd` becomes `passwd`. -/
theorem Sanitize_strips_directories (d s : String) (hne : s ≠ "") (hs : '/' ∉ s.data) :
    Sanitize (d ++ "/" ++ s) = Sanitize s ∧ Sanitize "../../etc/passwd" = "passwd" := by
  refine ⟨?_, by decide⟩
  have hs2 : ∀ c ∈ s.data, c ≠ '/' := fun c hc h => hs (h ▸ hc)
  have hne2 : d ++ "/" ++ s ≠ "" := by
    intro h
    have := congrArg String.data h
    simp [String.data_append] at this
  unfold Sanitize
  rw [sanitiseFilename_FileName _ hne2, sanitiseFilename_FileName _ hne]
  simp only [Base_append_segment d s hne hs2, Base_of_no_slash s hne hs2]

/-- Witness for C6 at `d = ../../etc` and `s = passwd`. -/
theorem Sanitize_strips_directories_witness :
    Sanitize ("../../etc" ++ "/" ++ "passwd") = Sanitize "passwd" ∧
    Sanitize "../../etc/passwd" = "passwd" :=
  Sanitize_strips_directories "../../etc" "passwd" (by decide) (by decide)

/-- C7. Character replacement is one-for-one: for a non-empty name without `/` and
without white space at either end, the sanitised name has as many characters as the name,
and at every position it has `_` where the name has one of `<`, `>`, `:`, double quote,
backslash, `|`, `?`, `*` or a character in U+0000..U+001F, and the character of the name
otherwise; `weird:name?.txt` becomes `weird_name_.txt` and the empty name stays empty. -/
theorem Sanitize_one_for_one (name : String) (hne : name ≠ "") (hslash : '/' ∉ name.data)
    (hfirst : ∀ c, name.data.head? = some c → isSpace c = false)
    (hlast : ∀ c, name.data.getLast? = some c → isSpace c = false) :
    (Sanitize name).data.length = name.data.length ∧
    (∀ (i : Nat) (h : i < name.data.length),
      (Sanitize name).data[i]? = some
        (if name.data[i] ∈ ['<', '>', ':', Char.ofNat 34, Char.ofNat 92, '|', '?', '*'] ∨
            name.data[i].toNat ≤ 0x1F
          then '_' else name.data[i])) ∧
    Sanitize "weird:name?.txt" = "weird_name_.txt" ∧ Sanitize "" = "" := by
  have hs2 : ∀ c ∈ name.data, c ≠ '/' := fun c hc h => hslash (h ▸ hc)
  have hval : (Sanitize name).data = name.data.map replaceChar := by
    unfold Sanitize
    rw [sanitiseFilename_FileName _ hne]
    simp only [Base_of_no_slash name hne hs2, TrimSpace_of_trimmed name hfirst hlast,
      replaceIllegal_data]
  refine ⟨by rw [hval, List.length_map], ?_, by decide, by decide⟩
  intro i h
  rw [hval, List.getElem?_map, List.getElem?_eq_getElem h]
  simp only [Option.map_some', Option.some.injEq]
  have hc : name.data[i] ≠ '/' := hs2 _ (List.getElem_mem h)
  generalize name.data[i] = c at hc
  have h34 : c.toNat = 34 ↔ c = Char.ofNat 34 := by
    constructor
    · intro e
      apply Char.ext
      apply UInt32.ext
      exact e
    · intro e; rw [e]; decide
  have h92 : c.toNat = 92 ↔ c = Char.ofNat 92 := by
    constructor
    · intro e
      apply Char.ext
      apply UInt32.ext
      exact e
    · intro e; rw [e]; decide
  have hiff : isIllegalChar c = true ↔
      (c ∈ ['<', '>', ':', Char.ofNat 34, Char.ofNat 92, '|', '?', '*'] ∨ c.toNat ≤ 0x1F) := by
    simp only [isIllegalChar, Bool.or_eq_true, beq_iff_eq, decide_eq_true_eq, h34, h92,
      List.mem_cons, List.mem_singleton, List.not_mem_nil, or_false, hc, false_or]
    tauto
  unfold replaceChar
  by_cases hi : isIllegalChar c = true
  · rw [if_pos hi, if_pos (hiff.mp hi)]
  · rw [if_neg hi, if_neg (fun h => hi (hiff.mpr h))]

/-- Witness for C7 at the name `weird:name?.txt`. -/
theorem Sanitize_one_for_one_witness :
    (Sanitize "weird:name?.txt").data.length = ("weird:name?.txt" : String).data.length :=
  (Sanitize_one_for_one "weird:name?.txt" (by decide) (by decide)
    (by decide) (by decide)).1

/-! ### Requirement check -/

theorem sanitiseFilename_File (config : UploadConfig) :
    (sanitiseFilename config).File = config.File := by
  unfold sanitiseFilename
  split_ifs <;> rfl

theorem sanitiseFilename_Directory (config : UploadConfig) :
    (sanitiseFilename config).Directory = config.Directory := by
  unfold sanitiseFilename
  split_ifs <;> rfl

theorem sanitiseFilename_ExpiryDays (config : UploadConfig) :
    (sanitiseFilename config).ExpiryDays = config.ExpiryDays := by
  unfold sanitiseFilename
  split_ifs <;> rfl

theorem sanitiseFilename_ExpiryDownloads (config : UploadConfig) :
    (sanitiseFilename config).ExpiryDownloads = config.ExpiryDownloads := by
  unfold sanitiseFilename
  split_ifs <;> rfl

theorem GetUploadParameters_eq (env : Env) (args : List String) (isArchive : Bool) :
    GetUploadParameters env args isArchive =
      (scanLoop args (args.length - 2) 2 {} >>= fun result =>
        if (checkRequiredUploadParameter env (afterScan result) isArchive).1 = true
        then .ret (checkRequiredUploadParameter env (afterScan result) isArchive).2
        else .exit 2) := by
  unfold GetUploadParameters afterScan
  congr 1
  funext result
  simp only [pure_eq_ret]
  cases h : (checkRequiredUploadParameter env _ isArchive).1 <;> simp [h]

theorem afterScan_requiredField (result : UploadConfig) (isArchive : Bool) :
    requiredField (afterScan result) isArchive = requiredField result isArchive := by
  unfold afterScan requiredField
  simp only [sanitiseFilename_File, sanitiseFilename_Directory]
  split_ifs <;> rfl

/-- Outside a container the requirement check is the test of the required field, and the
config is not touched. -/
theorem checkRequiredUploadParameter_outside (env : Env) (config : UploadConfig)
    (isArchive : Bool) (henv : env.IsDockerInstance = false) :
    checkRequiredUploadParameter env config isArchive =
      (decide (requiredField config isArchive ≠ ""), config) := by
  unfold checkRequiredUploadParameter requiredField
  cases isArchive <;> simp [henv] <;> split_ifs <;> simp_all

/-- C3. Outside a container, for an argument list whose scan runs to its end with config
`r`: `GetUploadParameters` returns a config exactly when the required field of `r`
(`Directory` in archive mode, `File` otherwise) is not empty, and exits with 2 otherwise;
the outcome is the same in every other environment outside a container, whatever its drop
folder holds; and `prog upload --expiry-days -5` exits with 2. -/
theorem GetUploadParameters_outside_container (env : Env) (args : List String)
    (isArchive : Bool) (r : UploadConfig) (henv : env.IsDockerInstance = false)
    (hscan : scanLoop args (args.length - 2) 2 {} = .ret r) :
    ((∃ cfg, GetUploadParameters env args isArchive = .ret cfg) ↔
      requiredField r isArchive ≠ "") ∧
    (requiredField r isArchive = "" → GetUploadParameters env args isArchive = .exit 2) ∧
    (∀ other : Env, other.IsDockerInstance = false →
      GetUploadParameters other args isArchive = GetUploadParameters env args isArchive) ∧
    GetUploadParameters env ["prog", "upload", "--expiry-days", "-5"] false = .exit 2 := by
  have hval : ∀ (e : Env) (l : List String) (r0 : UploadConfig),
      e.IsDockerInstance = false → scanLoop l (l.length - 2) 2 {} = .ret r0 →
      GetUploadParameters e l isArchive =
        if requiredField r0 isArchive ≠ "" then .ret (afterScan r0) else .exit 2 := by
    intro e l r0 he hl
    rw [GetUploadParameters_eq, hl, bind_ret,
      checkRequiredUploadParameter_outside e _ isArchive he, afterScan_requiredField]
    simp
  have hfive : GetUploadParameters env ["prog", "upload", "--expiry-days", "-5"] false =
      .exit 2 := by
    have hl : scanLoop ["prog", "upload", "--expiry-days", "-5"]
        (["prog", "upload", "--expiry-days", "-5"].length - 2) 2 {} =
          .ret { ExpiryDays := -5 } := by decide
    rw [GetUploadParameters_eq, hl, bind_ret,
      checkRequiredUploadParameter_outside env _ false henv, afterScan_requiredField]
    rfl
  rw [hval env args r henv hscan]
  refine ⟨?_, ?_, ?_, hfive⟩
  · by_cases h : requiredField r isArchive = "" <;> simp [h]
  · intro h
    simp [h]
  · intro other hother
    rw [hval other args r hother hscan]

/-- Witness for C3: the scan of `prog upload --directory docs` ends with `Directory = docs`
and `File` empty, so outside a container single-file mode exits with 2. -/
theorem GetUploadParameters_outside_container_witness :
    GetUploadParameters ⟨false, fun _ => none, "/upload/", "/app/config/config.json",
      "gokapi-cli.json"⟩ ["prog", "upload", "--directory", "docs"] false = .exit 2 :=
  (GetUploadParameters_outside_container _ ["prog", "upload", "--directory", "docs"] false
    { Directory := "docs" } rfl (by decide)).2.1 (by decide)

/-- Evaluation for C1. On `prog upload -f a.txt -p -j` in single-file mode the token `-j`
is stored as the password and then scanned again as the flag `-j`: the returned config has
`JsonOutput = true`. -/
theorem GetUploadParameters_value_scanned_again (env : Env) :
    GetUploadParameters env ["prog", "upload", "-f", "a.txt", "-p", "-j"] false =
      .ret { File := "a.txt", Password := "-j", JsonOutput := true } := by
  rfl

/-! ### Decimal numerals and `Atoi` -/

theorem digitChar_digit : ∀ k, k < 10 →
    isDigit (Nat.digitChar k) = true ∧ (Nat.digitChar k).toNat - 48 = k := by
  decide

theorem digitsValue_append_single (pre : List Char) (c : Char) :
    digitsValue (pre ++ [c]) = 10 * digitsValue pre + (c.toNat - 48) := by
  simp [digitsValue, List.foldl_append]

/-- The digits that `Nat.toDigitsCore` puts in front of the accumulator are decimal
digits, at least one, and their value is the number printed. -/
theorem toDigitsCore_spec : ∀ (fuel n : Nat) (ds : List Char), n < fuel →
    ∃ pre, Nat.toDigitsCore 10 fuel n ds = pre ++ ds ∧ pre ≠ [] ∧
      pre.all isDigit = true ∧ digitsValue pre = n := by
  intro fuel
  induction fuel with
  | zero => intro n ds h; omega
  | succ fuel ih =>
    intro n ds h
    have hd := digitChar_digit (n % 10) (Nat.mod_lt _ (by decide))
    unfold Nat.toDigitsCore
    simp only
    by_cases h0 : n / 10 = 0
    · rw [if_pos h0]
      refine ⟨[Nat.digitChar (n % 10)], by simp, by simp, by simpa using hd.1, ?_⟩
      have hn : n % 10 = n := by omega
      have h2 := hd.2
      rw [hn] at h2
      simp [digitsValue, h2, hn]
    · rw [if_neg h0]
      obtain ⟨pre, h1, h2, h3, h4⟩ := ih (n / 10) (Nat.digitChar (n % 10) :: ds) (by omega)
      refine ⟨pre ++ [Nat.digitChar (n % 10)], by simp [h1], by simp, ?_, ?_⟩
      · simp only [List.all_append, h3, Bool.true_and]
        simpa using hd.1
      · rw [digitsValue_append_single, h4, hd.2]
        omega

theorem toString_data_spec (n : Nat) :
    (toString n).data ≠ [] ∧ (toString n).data.all isDigit = true ∧
      digitsValue (toString n).data = n := by
  obtain ⟨pre, h1, h2, h3, h4⟩ := toDigitsCore_spec (n + 1) n [] (by omega)
  have : (toString n).data = pre := by
    show (Nat.repr n).data = pre
    simp [Nat.repr, Nat.toDigits, h1, List.asString]
  rw [this]
  exact ⟨h2, h3, h4⟩

/-- On a non-empty string of decimal digits whose value fits in an `int`, `Atoi` returns
the value. -/
theorem Atoi_of_digits (s : String) (hne : s.data ≠ []) (hall : s.data.all isDigit = true)
    (hrange : digitsValue s.data < 2 ^ 63) : Atoi s = some (digitsValue s.data : Int) := by
  cases hs : s.data with
  | nil => exact absurd hs hne
  | cons c t =>
    have hc : isDigit c = true := by
      rw [hs] at hall
      simp only [List.all_cons, Bool.and_eq_true] at hall
      exact hall.1
    have hminus : c ≠ '-' := by
      intro e; rw [e] at hc; exact absurd hc (by decide)
    have hplus : c ≠ '+' := by
      intro e; rw [e] at hc; exact absurd hc (by decide)
    rw [hs] at hall hrange
    unfold Atoi
    simp only [hs, List.head?_cons, Option.some.injEq, hminus, hplus, or_self, if_false,
      hall, intSize]
    simp
    omega

/-- The function `Atoi` reads back the decimal numeral of every `n` below `2^63`. -/
theorem Atoi_toString (n : Nat) (hn : n < 2 ^ 63) : Atoi (toString n) = some (n : Int) := by
  obtain ⟨h1, h2, h3⟩ := toString_data_spec n
  have := Atoi_of_digits (toString n) h1 h2 (by rw [h3]; exact hn)
  rw [h3] at this
  exact this

theorem recognisedFlags_not_digits : ∀ f ∈ recognisedFlags, f.data.all isDigit = false := by
  decide

theorem toString_not_flag (n : Nat) : toString n ∉ recognisedFlags := by
  intro h
  have h1 := recognisedFlags_not_digits _ h
  rw [(toString_data_spec n).2.1] at h1
  exact absurd h1 (by decide)

/-! ### The scan -/

theorem getParameter_of_next (args : List String) (i : Nat) (v : String)
    (hv : args[i + 1]? = some v) : getParameter args i = .ret (v, i) := by
  have hlt : i + 1 < args.length := by
    by_contra hge
    rw [List.getElem?_eq_none (by omega)] at hv
    exact absurd hv (by simp)
  have hget : args.getD (i + 1) "" = v := by
    rw [List.getD_eq_getElem?_getD, hv]; rfl
  unfold getParameter
  simp only [ge_iff_le, hget]
  rw [if_neg (by omega)]

theorem getParameter_of_last (args : List String) (i : Nat) (h : args.length ≤ i + 1) :
    getParameter args i = .exit 3 := by
  unfold getParameter
  simp only [ge_iff_le]
  rw [if_pos h]
  rfl

/-- A token that is not a case label of the `switch` selects no clause. -/
theorem switchCase_unrecognised (arg : String) (h : arg ∉ recognisedFlags) :
    switchCase arg = .noCase := by
  simp only [recognisedFlags, List.mem_cons, List.mem_singleton, List.not_mem_nil,
    or_false, not_or] at h
  obtain ⟨h1, h2, h3, h4, h5, h6, h7, h8, h9, h10, h11, h12, h13, h14, h15, h16, h17, h18,
    h19, h20⟩ := h
  unfold switchCase
  simp only [h1, h2, h3, h4, h5, h6, h7, h8, h9, h10, h11, h12, h13, h14, h15, h16, h17, h18,
    h19, h20, or_self, if_false]

/-- A token that is not a case label of the `switch` leaves cursor and config alone. -/
theorem scanStep_unrecognised (args : List String) (i : Nat) (r : UploadConfig)
    (h : args.getD i "" ∉ recognisedFlags) : scanStep args i r = .ret (i, r) := by
  unfold scanStep
  rw [switchCase_unrecognised _ h]

theorem getParameter_cases (args : List String) (i : Nat) :
    getParameter args i = .exit 3 ∨ ∃ v, args[i + 1]? = some v ∧ getParameter args i = .ret (v, i) := by
  by_cases hlast : args.length ≤ i + 1
  · exact Or.inl (getParameter_of_last args i hlast)
  · have hv : args[i + 1]? = some (args[i + 1]) := List.getElem?_eq_getElem (by omega)
    exact Or.inr ⟨_, hv, getParameter_of_next args i _ hv⟩

theorem requireInt_cases (v : String) :
    (Atoi v = none ∧ requireInt v = .exit 2) ∨ ∃ n, Atoi v = some n ∧ requireInt v = .ret n := by
  unfold requireInt
  cases h : Atoi v with
  | none => exact Or.inl ⟨rfl, rfl⟩
  | some n => exact Or.inr ⟨n, rfl, rfl⟩

/-- The loop body comes back with the cursor it was given. -/
theorem scanStep_cursor (args : List String) (i j : Nat) (r r1 : UploadConfig)
    (h : scanStep args i r = .ret (j, r1)) : j = i := by
  unfold scanStep at h
  rcases getParameter_cases args i with hg | ⟨v, _, hg⟩
  · rw [hg] at h
    cases hc : switchCase (args.getD i "") <;> rw [hc] at h <;>
      simp only [bind_exit, printUsage] at h <;>
      first | (cases h; rfl) | exact absurd h (by simp)
  · rw [hg] at h
    rcases requireInt_cases v with ⟨_, hq⟩ | ⟨n, _, hq⟩ <;>
    cases hc : switchCase (args.getD i "") <;> rw [hc] at h <;>
      simp only [bind_ret, hq, bind_exit, printUsage, pure_eq_ret] at h <;>
      first | (cases h; rfl) | exact absurd h (by simp)

theorem switchCase_expiryDays_iff (arg : String) :
    switchCase arg = .expiryDays ↔ arg = "-e" ∨ arg = "--expiry-days" := by
  constructor
  · intro h
    unfold switchCase at h
    split_ifs at h with h1 h2 h3 h4
    exact h4
  · rintro (h | h) <;> rw [h] <;> decide

theorem switchCase_expiryDownloads_iff (arg : String) :
    switchCase arg = .expiryDownloads ↔ arg = "-d" ∨ arg = "--expiry-downloads" := by
  constructor
  · intro h
    unfold switchCase at h
    split_ifs at h with h1 h2 h3 h4 h5
    exact h5
  · rintro (h | h) <;> rw [h] <;> decide

theorem scanLoop_done (args : List String) (fuel i : Nat) (r : UploadConfig)
    (h : args.length ≤ i) : scanLoop args fuel i r = .ret r := by
  cases fuel with
  | zero => rfl
  | succ fuel =>
    unfold scanLoop
    rw [if_neg (by omega)]

theorem scanLoop_step (args : List String) (fuel i : Nat) (r r1 : UploadConfig)
    (hi : i < args.length) (h : scanStep args i r = .ret (i, r1)) :
    scanLoop args (fuel + 1) i r = scanLoop args fuel (i + 1) r1 := by
  rw [scanLoop, if_pos hi, h]

theorem scanLoop_exit (args : List String) (fuel i : Nat) (r : UploadConfig) (c : Int)
    (hi : i < args.length) (h : scanStep args i r = .exit c) :
    scanLoop args (fuel + 1) i r = .exit c := by
  rw [scanLoop, if_pos hi, h]

/-- More fuel than `len(os.Args) - i` changes nothing: the loop of `scanLoop` has ended
by then. -/
theorem scanLoop_fuel (args : List String) : ∀ (fuel extra i : Nat) (r : UploadConfig),
    args.length - i ≤ fuel → scanLoop args (fuel + extra) i r = scanLoop args fuel i r := by
  intro fuel
  induction fuel with
  | zero =>
    intro extra i r h
    rw [scanLoop_done args _ i r (by omega), scanLoop_done args _ i r (by omega)]
  | succ fuel ih =>
    intro extra i r h
    by_cases hi : i < args.length
    · have e : fuel + 1 + extra = (fuel + extra) + 1 := by omega
      rw [e]
      cases hs : scanStep args i r with
      | exit c => rw [scanLoop_exit _ _ _ _ _ hi hs, scanLoop_exit _ _ _ _ _ hi hs]
      | ret x =>
        obtain ⟨j, r1⟩ := x
        have hj := scanStep_cursor _ _ _ _ _ hs
        subst hj
        rw [scanLoop_step _ _ _ _ _ hi hs, scanLoop_step _ _ _ _ _ hi hs]
        exact ih extra _ r1 (by omega)
    · rw [scanLoop_done args _ i r (by omega), scanLoop_done args _ i r (by omega)]

/-- C2. For every non-empty path `p` that is not a recognised flag token and every
`n < 2^63` with decimal numeral `s`, `GetUploadParameters` on
`prog upload -f p -e s` in single-file mode returns, in every environment (inside or
outside a container), the config with `File = p`, `ExpiryDays = n` and every other field at
its zero value. -/
theorem GetUploadParameters_file_expiry (env : Env) (p : String) (n : Nat)
    (hp : p ≠ "") (hflag : p ∉ recognisedFlags) (hn : n < 2 ^ (intSize - 1)) :
    GetUploadParameters env ["prog", "upload", "-f", p, "-e", toString n] false =
      .ret { File := p, Directory := "", TmpFolder := "", FileName := "",
             JsonOutput := false, DisableE2e := false, ExpiryDays := (n : Int),
             ExpiryDownloads := 0, Password := "" } := by
  have h2 : ∀ r : UploadConfig,
      scanStep ["prog", "upload", "-f", p, "-e", toString n] 2 r =
        .ret (2, { r with File := p }) := by
    intro r; rfl
  have h3 : ∀ r : UploadConfig,
      scanStep ["prog", "upload", "-f", p, "-e", toString n] 3 r = .ret (3, r) :=
    fun r => scanStep_unrecognised _ _ _ hflag
  have h4 : ∀ r : UploadConfig,
      scanStep ["prog", "upload", "-f", p, "-e", toString n] 4 r =
        .ret (4, { r with ExpiryDays := (n : Int) }) := by
    intro r
    have hg := getParameter_of_next ["prog", "upload", "-f", p, "-e", toString n] 4
      (toString n) rfl
    have hc : switchCase
        (["prog", "upload", "-f", p, "-e", toString n].getD 4 "") = .expiryDays := rfl
    unfold scanStep
    rw [hc]
    simp only [hg, bind_ret, requireInt, Atoi_toString n hn, pure_eq_ret]
  have h5 : ∀ r : UploadConfig,
      scanStep ["prog", "upload", "-f", p, "-e", toString n] 5 r = .ret (5, r) :=
    fun r => scanStep_unrecognised _ _ _ (toString_not_flag n)
  have hscan : scanLoop ["prog", "upload", "-f", p, "-e", toString n] 4 2 {} =
      .ret { File := p, ExpiryDays := (n : Int) } := by
    rw [scanLoop_step _ _ _ _ _ (by simp) (h2 _), scanLoop_step _ _ _ _ _ (by simp) (h3 _),
      scanLoop_step _ _ _ _ _ (by simp) (h4 _), scanLoop_step _ _ _ _ _ (by simp) (h5 _)]
    rfl
  have hafter : afterScan { File := p, ExpiryDays := (n : Int) } =
      { File := p, ExpiryDays := (n : Int) } := by
    have hnn : ¬ ((n : Int) < 0) := by omega
    simp [afterScan, sanitiseFilename, hnn]
  have hcheck : checkRequiredUploadParameter env { File := p, ExpiryDays := (n : Int) } false =
      (true, { File := p, ExpiryDays := (n : Int) }) := by
    simp [checkRequiredUploadParameter, hp]
  rw [GetUploadParameters_eq]
  show (scanLoop ["prog", "upload", "-f", p, "-e", toString n] 4 2 {} >>= _) = _
  rw [hscan, bind_ret, hafter, hcheck]
  rfl

/-- Witness for C2 at `p = a.txt` and `n = 7`. -/
theorem GetUploadParameters_file_expiry_witness :
    GetUploadParameters ⟨true, fun _ => none, "/upload/", "/app/config/config.json",
      "gokapi-cli.json"⟩ ["prog", "upload", "-f", "a.txt", "-e", toString 7] false =
      .ret { File := "a.txt", Directory := "", TmpFolder := "", FileName := "",
             JsonOutput := false, DisableE2e := false, ExpiryDays := ((7 : Nat) : Int),
             ExpiryDownloads := 0, Password := "" } :=
  GetUploadParameters_file_expiry _ "a.txt" 7 (by decide) (by decide) (by decide)

theorem switchCase_getD_expiryDays (args : List String) (j : Nat) :
    switchCase (args.getD j "") = .expiryDays ↔
      (args[j]? = some "-e" ∨ args[j]? = some "--expiry-days") := by
  rw [switchCase_expiryDays_iff, List.getD_eq_getElem?_getD]
  cases h : args[j]? with
  | none => simp only [Option.getD_none]; constructor <;> intro h' <;> rcases h' with h' | h' <;> simp at h'
  | some t => simp only [Option.getD_some, Option.some.injEq]

theorem switchCase_getD_expiryDownloads (args : List String) (j : Nat) :
    switchCase (args.getD j "") = .expiryDownloads ↔
      (args[j]? = some "-d" ∨ args[j]? = some "--expiry-downloads") := by
  rw [switchCase_expiryDownloads_iff, List.getD_eq_getElem?_getD]
  cases h : args[j]? with
  | none => simp only [Option.getD_none]; constructor <;> intro h' <;> rcases h' with h' | h' <;> simp at h'
  | some t => simp only [Option.getD_some, Option.some.injEq]

/-- A loop body that is not the clause of `-e` leaves `ExpiryDays` as it was. -/
theorem scanStep_ExpiryDays_frame (args : List String) (i j : Nat) (r r1 : UploadConfig)
    (h : scanStep args i r = .ret (j, r1))
    (hc : switchCase (args.getD i "") ≠ .expiryDays) : r1.ExpiryDays = r.ExpiryDays := by
  unfold scanStep at h
  rcases getParameter_cases args i with hg | ⟨v, _, hg⟩
  · rw [hg] at h
    cases hk : switchCase (args.getD i "") <;> rw [hk] at h <;>
      simp only [bind_exit, printUsage] at h <;>
      first | (cases h; rfl) | exact absurd h (by simp)
  · rw [hg] at h
    rcases requireInt_cases v with ⟨_, hq⟩ | ⟨n, _, hq⟩ <;>
    cases hk : switchCase (args.getD i "") <;> rw [hk] at h <;>
      simp only [bind_ret, hq, bind_exit, printUsage, pure_eq_ret] at h <;>
      first | exact absurd hk hc | (cases h; rfl) | exact absurd h (by simp)

/-- A loop body that is not the clause of `-d` leaves `ExpiryDownloads` as it was. -/
theorem scanStep_ExpiryDownloads_frame (args : List String) (i j : Nat) (r r1 : UploadConfig)
    (h : scanStep args i r = .ret (j, r1))
    (hc : switchCase (args.getD i "") ≠ .expiryDownloads) :
    r1.ExpiryDownloads = r.ExpiryDownloads := by
  unfold scanStep at h
  rcases getParameter_cases args i with hg | ⟨v, _, hg⟩
  · rw [hg] at h
    cases hk : switchCase (args.getD i "") <;> rw [hk] at h <;>
      simp only [bind_exit, printUsage] at h <;>
      first | (cases h; rfl) | exact absurd h (by simp)
  · rw [hg] at h
    rcases requireInt_cases v with ⟨_, hq⟩ | ⟨n, _, hq⟩ <;>
    cases hk : switchCase (args.getD i "") <;> rw [hk] at h <;>
      simp only [bind_ret, hq, bind_exit, printUsage, pure_eq_ret] at h <;>
      first | exact absurd hk hc | (cases h; rfl) | exact absurd h (by simp)

/-- The clause of `-e` with a value that `Atoi` accepts stores the parsed value. -/
theorem scanStep_expiryDays (args : List String) (i : Nat) (r : UploadConfig) (v : String)
    (n : Int) (hc : switchCase (args.getD i "") = .expiryDays)
    (hv : args[i + 1]? = some v) (hn : Atoi v = some n) :
    scanStep args i r = .ret (i, { r with ExpiryDays := n }) := by
  unfold scanStep
  rw [hc]
  simp only [getParameter_of_next args i v hv, bind_ret, requireInt, hn, pure_eq_ret]

/-- The clause of `-d` with a value that `Atoi` accepts stores the parsed value. -/
theorem scanStep_expiryDownloads (args : List String) (i : Nat) (r : UploadConfig)
    (v : String) (n : Int) (hc : switchCase (args.getD i "") = .expiryDownloads)
    (hv : args[i + 1]? = some v) (hn : Atoi v = some n) :
    scanStep args i r = .ret (i, { r with ExpiryDownloads := n }) := by
  unfold scanStep
  rw [hc]
  simp only [getParameter_of_next args i v hv, bind_ret, requireInt, hn, pure_eq_ret]

/-- The clause of `-e` or `-d` with a value that `Atoi` rejects exits with 2. -/
theorem scanStep_bad_integer (args : List String) (i : Nat) (r : UploadConfig) (v : String)
    (hc : switchCase (args.getD i "") = .expiryDays ∨
      switchCase (args.getD i "") = .expiryDownloads)
    (hv : args[i + 1]? = some v) (hn : Atoi v = none) :
    scanStep args i r = .exit 2 := by
  unfold scanStep
  rcases hc with hc | hc <;> rw [hc] <;>
    simp only [getParameter_of_next args i v hv, bind_ret, requireInt, hn, bind_exit]

theorem scanLoop_ExpiryDays_frame (args : List String) :
    ∀ (fuel i : Nat) (r r1 : UploadConfig), scanLoop args fuel i r = .ret r1 →
      (∀ j, i ≤ j → switchCase (args.getD j "") ≠ .expiryDays) →
      r1.ExpiryDays = r.ExpiryDays := by
  intro fuel
  induction fuel with
  | zero =>
    intro i r r1 h _
    cases h; rfl
  | succ fuel ih =>
    intro i r r1 h hno
    by_cases hi : i < args.length
    · cases hs : scanStep args i r with
      | exit c =>
        rw [scanLoop_exit _ _ _ _ _ hi hs] at h
        exact absurd h (by simp)
      | ret x =>
        obtain ⟨j, r2⟩ := x
        have hj := scanStep_cursor _ _ _ _ _ hs
        subst hj
        rw [scanLoop_step _ _ _ _ _ hi hs] at h
        rw [ih _ _ _ h (fun k hk => hno k (by omega)),
          scanStep_ExpiryDays_frame _ _ _ _ _ hs (hno _ (le_refl _))]
    · rw [scanLoop_done args _ i r (by omega)] at h
      cases h; rfl

theorem scanLoop_ExpiryDownloads_frame (args : List String) :
    ∀ (fuel i : Nat) (r r1 : UploadConfig), scanLoop args fuel i r = .ret r1 →
      (∀ j, i ≤ j → switchCase (args.getD j "") ≠ .expiryDownloads) →
      r1.ExpiryDownloads = r.ExpiryDownloads := by
  intro fuel
  induction fuel with
  | zero =>
    intro i r r1 h _
    cases h; rfl
  | succ fuel ih =>
    intro i r r1 h hno
    by_cases hi : i < args.length
    · cases hs : scanStep args i r with
      | exit c =>
        rw [scanLoop_exit _ _ _ _ _ hi hs] at h
        exact absurd h (by simp)
      | ret x =>
        obtain ⟨j, r2⟩ := x
        have hj := scanStep_cursor _ _ _ _ _ hs
        subst hj
        rw [scanLoop_step _ _ _ _ _ hi hs] at h
        rw [ih _ _ _ h (fun k hk => hno k (by omega)),
          scanStep_ExpiryDownloads_frame _ _ _ _ _ hs (hno _ (le_refl _))]
    · rw [scanLoop_done args _ i r (by omega)] at h
      cases h; rfl

/-- After a scan that returns, `ExpiryDays` is the value parsed at the last clause of
`-e` the loop went through. -/
theorem scanLoop_ExpiryDays_last (args : List String) (k : Nat) (v : String) (n : Int)
    (hk : switchCase (args.getD k "") = .expiryDays)
    (hlast : ∀ j, k < j → switchCase (args.getD j "") ≠ .expiryDays)
    (hv : args[k + 1]? = some v) (hn : Atoi v = some n) :
    ∀ (fuel i : Nat) (r r1 : UploadConfig), scanLoop args fuel i r = .ret r1 →
      i ≤ k → k < i + fuel → r1.ExpiryDays = n := by
  have hklt : k < args.length := by
    by_contra hge
    rw [List.getElem?_eq_none (by omega)] at hv
    exact absurd hv (by simp)
  intro fuel
  induction fuel with
  | zero => intro i r r1 _ h1 h2; omega
  | succ fuel ih =>
    intro i r r1 h h1 h2
    have hi : i < args.length := by omega
    by_cases hik : i = k
    · subst hik
      rw [scanLoop_step _ _ _ _ _ hi (scanStep_expiryDays args i r v n hk hv hn)] at h
      rw [scanLoop_ExpiryDays_frame args _ _ _ _ h (fun j hj => hlast j (by omega))]
    · cases hs : scanStep args i r with
      | exit c =>
        rw [scanLoop_exit _ _ _ _ _ hi hs] at h
        exact absurd h (by simp)
      | ret x =>
        obtain ⟨j, r2⟩ := x
        have hj := scanStep_cursor _ _ _ _ _ hs
        subst hj
        rw [scanLoop_step _ _ _ _ _ hi hs] at h
        exact ih _ _ _ h (by omega) (by omega)

/-- After a scan that returns, `ExpiryDownloads` is the value parsed at the last clause
of `-d` the loop went through. -/
theorem scanLoop_ExpiryDownloads_last (args : List String) (k : Nat) (v : String) (n : Int)
    (hk : switchCase (args.getD k "") = .expiryDownloads)
    (hlast : ∀ j, k < j → switchCase (args.getD j "") ≠ .expiryDownloads)
    (hv : args[k + 1]? = some v) (hn : Atoi v = some n) :
    ∀ (fuel i : Nat) (r r1 : UploadConfig), scanLoop args fuel i r = .ret r1 →
      i ≤ k → k < i + fuel → r1.ExpiryDownloads = n := by
  have hklt : k < args.length := by
    by_contra hge
    rw [List.getElem?_eq_none (by omega)] at hv
    exact absurd hv (by simp)
  intro fuel
  induction fuel with
  | zero => intro i r r1 _ h1 h2; omega
  | succ fuel ih =>
    intro i r r1 h h1 h2
    have hi : i < args.length := by omega
    by_cases hik : i = k
    · subst hik
      rw [scanLoop_step _ _ _ _ _ hi (scanStep_expiryDownloads args i r v n hk hv hn)] at h
      rw [scanLoop_ExpiryDownloads_frame args _ _ _ _ h (fun j hj => hlast j (by omega))]
    · cases hs : scanStep args i r with
      | exit c =>
        rw [scanLoop_exit _ _ _ _ _ hi hs] at h
        exact absurd h (by simp)
      | ret x =>
        obtain ⟨j, r2⟩ := x
        have hj := scanStep_cursor _ _ _ _ _ hs
        subst hj
        rw [scanLoop_step _ _ _ _ _ hi hs] at h
        exact ih _ _ _ h (by omega) (by omega)

/-- The requirement check writes no field other than `File`. -/
theorem checkRequiredUploadParameter_frame (env : Env) (config : UploadConfig)
    (isArchive : Bool) :
    (checkRequiredUploadParameter env config isArchive).2 =
      { config with File := (checkRequiredUploadParameter env config isArchive).2.File } := by
  unfold checkRequiredUploadParameter
  generalize getDockerUpload env isArchive = found
  obtain ⟨ok, uploadPath⟩ := found
  simp only
  split_ifs <;> rfl

theorem afterScan_ExpiryDays (r : UploadConfig) :
    (afterScan r).ExpiryDays = if r.ExpiryDays < 0 then 0 else r.ExpiryDays := by
  unfold afterScan
  simp only [sanitiseFilename_ExpiryDays]
  split_ifs <;> rfl

theorem afterScan_ExpiryDownloads (r : UploadConfig) :
    (afterScan r).ExpiryDownloads =
      if r.ExpiryDownloads < 0 then 0 else r.ExpiryDownloads := by
  unfold afterScan
  simp only [sanitiseFilename_ExpiryDownloads]
  split_ifs <;> rfl

/-- A returned config comes from a scan that ran to its end, followed by the clamps, the
sanitiser and a satisfied requirement check. -/
theorem GetUploadParameters_ret (env : Env) (args : List String) (isArchive : Bool)
    (cfg : UploadConfig) (h : GetUploadParameters env args isArchive = .ret cfg) :
    ∃ r, scanLoop args (args.length - 2) 2 {} = .ret r ∧
      (checkRequiredUploadParameter env (afterScan r) isArchive).1 = true ∧
      cfg = (checkRequiredUploadParameter env (afterScan r) isArchive).2 := by
  rw [GetUploadParameters_eq] at h
  cases hs : scanLoop args (args.length - 2) 2 {} with
  | exit c => rw [hs] at h; exact absurd h (by simp)
  | ret r =>
    rw [hs, bind_ret] at h
    refine ⟨r, rfl, ?_⟩
    by_cases hc : (checkRequiredUploadParameter env (afterScan r) isArchive).1 = true
    · rw [if_pos hc] at h
      cases h
      exact ⟨hc, rfl⟩
    · rw [if_neg hc] at h
      exact absurd h (by simp)

/-- C8. In every config that `GetUploadParameters` returns, `ExpiryDays` and
`ExpiryDownloads` are not negative; and when the token after the last `-e` or
`--expiry-days` of the argument list (from index 2 on) is a negative integer, the returned
`ExpiryDays` is 0, likewise `ExpiryDownloads` for `-d` and `--expiry-downloads`. -/
theorem GetUploadParameters_expiry_nonneg (env : Env) (args : List String)
    (isArchive : Bool) (cfg : UploadConfig)
    (h : GetUploadParameters env args isArchive = .ret cfg) :
    0 ≤ cfg.ExpiryDays ∧ 0 ≤ cfg.ExpiryDownloads ∧
    (∀ (i : Nat) (v : String) (n : Int), 2 ≤ i →
      (args[i]? = some "-e" ∨ args[i]? = some "--expiry-days") →
      (∀ j, i < j → ¬ (args[j]? = some "-e" ∨ args[j]? = some "--expiry-days")) →
      args[i + 1]? = some v → Atoi v = some n → n < 0 → cfg.ExpiryDays = 0) ∧
    (∀ (i : Nat) (v : String) (n : Int), 2 ≤ i →
      (args[i]? = some "-d" ∨ args[i]? = some "--expiry-downloads") →
      (∀ j, i < j → ¬ (args[j]? = some "-d" ∨ args[j]? = some "--expiry-downloads")) →
      args[i + 1]? = some v → Atoi v = some n → n < 0 → cfg.ExpiryDownloads = 0) := by
  obtain ⟨r, hscan, _, hcfg⟩ := GetUploadParameters_ret env args isArchive cfg h
  have hframe := checkRequiredUploadParameter_frame env (afterScan r) isArchive
  have hdays : cfg.ExpiryDays = if r.ExpiryDays < 0 then 0 else r.ExpiryDays := by
    rw [hcfg, hframe, ← afterScan_ExpiryDays]
  have hdown : cfg.ExpiryDownloads =
      if r.ExpiryDownloads < 0 then 0 else r.ExpiryDownloads := by
    rw [hcfg, hframe, ← afterScan_ExpiryDownloads]
  refine ⟨?_, ?_, ?_, ?_⟩
  · rw [hdays]; split_ifs <;> omega
  · rw [hdown]; split_ifs <;> omega
  · intro i v n hi hflag hlast hv hn hneg
    have hlen : i + 1 < args.length := by
      by_contra hge
      rw [List.getElem?_eq_none (by omega)] at hv
      exact absurd hv (by simp)
    have hval := scanLoop_ExpiryDays_last args i v n
      ((switchCase_getD_expiryDays args i).mpr hflag)
      (fun j hj hc => hlast j hj ((switchCase_getD_expiryDays args j).mp hc))
      hv hn _ _ _ _ hscan hi (by omega)
    rw [hdays, hval, if_pos hneg]
  · intro i v n hi hflag hlast hv hn hneg
    have hlen : i + 1 < args.length := by
      by_contra hge
      rw [List.getElem?_eq_none (by omega)] at hv
      exact absurd hv (by simp)
    have hval := scanLoop_ExpiryDownloads_last args i v n
      ((switchCase_getD_expiryDownloads args i).mpr hflag)
      (fun j hj hc => hlast j hj ((switchCase_getD_expiryDownloads args j).mp hc))
      hv hn _ _ _ _ hscan hi (by omega)
    rw [hdown, hval, if_pos hneg]

/-- Witness for C8: `prog upload -f a.txt -e -5 -d -1` returns a config with both expiry
fields at 0. -/
theorem GetUploadParameters_expiry_nonneg_witness :
    GetUploadParameters
      ⟨false, fun _ => none, "/upload/", "/app/config/config.json", "gokapi-cli.json"⟩
      ["prog", "upload", "-f", "a.txt", "-e", "-5", "-d", "-1"] false =
        .ret { File := "a.txt" } ∧
    ({ File := "a.txt" } : UploadConfig).ExpiryDays = 0 ∧
    ({ File := "a.txt" } : UploadConfig).ExpiryDownloads = 0 :=
  have h := GetUploadParameters_expiry_nonneg
    ⟨false, fun _ => none, "/upload/", "/app/config/config.json", "gokapi-cli.json"⟩
    ["prog", "upload", "-f", "a.txt", "-e", "-5", "-d", "-1"] false { File := "a.txt" }
    (by decide)
  ⟨by decide,
   h.2.2.1 4 "-5" (-5) (by decide) (by decide)
     (fun j hj => by
       have h8 : j < 8 ∨ 8 ≤ j := by omega
       rcases h8 with h8 | h8
       · interval_cases j
         all_goals decide
       · rw [List.getElem?_eq_none (by simpa using h8)]; simp)
     (by decide) (by decide) (by decide),
   h.2.2.2 6 "-1" (-1) (by decide) (by decide)
     (fun j hj => by
       have h8 : j < 8 ∨ 8 ≤ j := by omega
       rcases h8 with h8 | h8
       · interval_cases j
         all_goals decide
       · rw [List.getElem?_eq_none (by simpa using h8)]; simp)
     (by decide) (by decide) (by decide)⟩

/-- When every loop body before cursor `k` comes back and the body at `k` exits with
`c`, the scan exits with `c`. -/
theorem scanLoop_exit_at (args : List String) (k : Nat) (c : Int)
    (hk : k < args.length) (hexit : ∀ r, scanStep args k r = .exit c) :
    ∀ (fuel i : Nat) (r : UploadConfig), i ≤ k → k < i + fuel →
      (∀ j r0, i ≤ j → j < k → ∃ x, scanStep args j r0 = .ret x) →
      scanLoop args fuel i r = .exit c := by
  intro fuel
  induction fuel with
  | zero => intro i r h1 h2 _; omega
  | succ fuel ih =>
    intro i r h1 h2 hearlier
    have hi : i < args.length := by omega
    by_cases hik : i = k
    · subst hik
      exact scanLoop_exit _ _ _ _ _ hi (hexit r)
    · obtain ⟨x, hs⟩ := hearlier i r (le_refl _) (by omega)
      obtain ⟨j, r2⟩ := x
      have hj := scanStep_cursor _ _ _ _ _ hs
      subst hj
      rw [scanLoop_step _ _ _ _ _ hi hs]
      exact ih _ _ (by omega) (by omega) (fun j r0 hj1 hj2 => hearlier j r0 (by omega) hj2)

/-- C10. When `-e`, `--expiry-days`, `-d` or `--expiry-downloads` stands at an index
`i ≥ 2` and is followed by a token that `Atoi` rejects (anything that is not a base-10
integer), and no loop body before `i` ends the process, `GetUploadParameters` exits with
2, in either mode, in every environment, whatever else the arguments hold. -/
theorem GetUploadParameters_bad_integer (env : Env) (args : List String) (isArchive : Bool)
    (i : Nat) (v : String) (hi : 2 ≤ i)
    (hflag : args[i]? = some "-e" ∨ args[i]? = some "--expiry-days" ∨
      args[i]? = some "-d" ∨ args[i]? = some "--expiry-downloads")
    (hv : args[i + 1]? = some v) (hbad : Atoi v = none)
    (hearlier : ∀ j r, 2 ≤ j → j < i → ∃ x, scanStep args j r = .ret x) :
    GetUploadParameters env args isArchive = .exit 2 := by
  have hlen : i + 1 < args.length := by
    by_contra hge
    rw [List.getElem?_eq_none (by omega)] at hv
    exact absurd hv (by simp)
  have hcase : switchCase (args.getD i "") = .expiryDays ∨
      switchCase (args.getD i "") = .expiryDownloads := by
    rcases hflag with h | h | h | h
    · exact Or.inl ((switchCase_getD_expiryDays args i).mpr (Or.inl h))
    · exact Or.inl ((switchCase_getD_expiryDays args i).mpr (Or.inr h))
    · exact Or.inr ((switchCase_getD_expiryDownloads args i).mpr (Or.inl h))
    · exact Or.inr ((switchCase_getD_expiryDownloads args i).mpr (Or.inr h))
  have hscan := scanLoop_exit_at args i 2 (by omega)
    (fun r => scanStep_bad_integer args i r v hcase hv hbad)
    (args.length - 2) 2 {} hi (by omega) hearlier
  rw [GetUploadParameters_eq, hscan, bind_exit]

/-- Witness for C10: `prog upload-dir -D docs -e abc` exits with 2. -/
theorem GetUploadParameters_bad_integer_witness :
    GetUploadParameters
      ⟨true, fun _ => none, "/upload/", "/app/config/config.json", "gokapi-cli.json"⟩
      ["prog", "upload-dir", "-D", "docs", "-e", "abc"] true = .exit 2 :=
  GetUploadParameters_bad_integer _ ["prog", "upload-dir", "-D", "docs", "-e", "abc"] true
    4 "abc" (by decide) (by decide) (by decide) (by decide)
    (fun j r h1 h2 => by
      interval_cases j
      · exact ⟨_, rfl⟩
      · exact ⟨_, rfl⟩)

/-! ### The scan as a function of the tokens -/

theorem getParameter_eq (args : List String) (i : Nat) :
    getParameter args i =
      match args[i + 1]? with
      | some v => .ret (v, i)
      | none => .exit 3 := by
  cases h : args[i + 1]? with
  | some v => exact getParameter_of_next args i v h
  | none =>
    have hlen : args.length ≤ i + 1 := by
      by_contra hlt
      rw [List.getElem?_eq_getElem (by omega)] at h
      exact absurd h (by simp)
    exact getParameter_of_last args i hlen

/-- The loop body `scanStep` reads `os.Args[i]` and `os.Args[i+1]` only, and comes back
with the cursor it was given. -/
theorem scanStep_eq_tokenStep (args : List String) (i : Nat) (r : UploadConfig) :
    scanStep args i r =
      (tokenStep (args.getD i "") args[i + 1]? r >>= fun r1 => .ret (i, r1)) := by
  unfold scanStep tokenStep
  rw [getParameter_eq]
  cases hc : switchCase (args.getD i "") <;> cases hn : args[i + 1]? <;>
    simp only [bind_ret, bind_exit, printUsage, pure_eq_ret] <;>
    first
      | rfl
      | (rename_i v
         rcases requireInt_cases v with ⟨_, hq⟩ | ⟨n, _, hq⟩ <;>
           simp only [hq, bind_ret, bind_exit])

/-- The loop `scanLoop` with enough fuel is the scan of the tokens from the cursor on. -/
theorem scanLoop_eq_scanTokens (args : List String) :
    ∀ (fuel i : Nat) (r : UploadConfig), args.length - i ≤ fuel →
      scanLoop args fuel i r = scanTokens (args.drop i) r := by
  intro fuel
  induction fuel with
  | zero =>
    intro i r h
    rw [scanLoop_done args _ i r (by omega), List.drop_eq_nil_of_le (by omega)]
    rfl
  | succ fuel ih =>
    intro i r h
    by_cases hi : i < args.length
    · have hdrop : args.drop i = args.getD i "" :: args.drop (i + 1) := by
        rw [List.getD_eq_getElem?_getD, List.getElem?_eq_getElem hi]
        exact List.drop_eq_getElem_cons hi
      have hhead : (args.drop (i + 1)).head? = args[i + 1]? := by
        rw [List.head?_drop]
      rw [hdrop, scanTokens, hhead, scanLoop, if_pos hi, scanStep_eq_tokenStep]
      cases ht : tokenStep (args.getD i "") args[i + 1]? r with
      | exit c => rfl
      | ret r1 =>
        simp only [bind_ret]
        exact ih (i + 1) r1 (by omega)
    · rw [scanLoop_done args _ i r (by omega), List.drop_eq_nil_of_le (by omega)]
      rfl

/-- The function `GetUploadParameters` in terms of the scan of the tokens from index 2. -/
theorem GetUploadParameters_eq_tokens (env : Env) (args : List String) (isArchive : Bool) :
    GetUploadParameters env args isArchive =
      (scanTokens (args.drop 2) {} >>= fun result =>
        if (checkRequiredUploadParameter env (afterScan result) isArchive).1 = true
        then .ret (checkRequiredUploadParameter env (afterScan result) isArchive).2
        else .exit 2) := by
  rw [GetUploadParameters_eq, scanLoop_eq_scanTokens args _ 2 {} (le_refl _)]

theorem valueFlags_switchCase : ∀ tok ∈ valueFlags,
    switchCase tok ∈ [Case.file, Case.expiryDays, Case.expiryDownloads, Case.password,
      Case.directory, Case.tempfolder, Case.name] := by
  decide

/-- The clause of a flag that takes a value, at the last index, exits with 3. -/
theorem tokenStep_missing_value (tok : String) (r : UploadConfig) (h : tok ∈ valueFlags) :
    tokenStep tok none r = .exit 3 := by
  have hc := valueFlags_switchCase tok h
  simp only [List.mem_cons, List.mem_singleton, List.not_mem_nil, or_false] at hc
  unfold tokenStep
  rcases hc with hc | hc | hc | hc | hc | hc | hc <;> rw [hc]

theorem scanStep_missing_value (args : List String) (i : Nat) (r : UploadConfig)
    (tok : String) (htok : args[i]? = some tok) (h : tok ∈ valueFlags)
    (hlast : i + 1 = args.length) : scanStep args i r = .exit 3 := by
  have hget : args.getD i "" = tok := by
    rw [List.getD_eq_getElem?_getD, htok]; rfl
  have hnext : args[i + 1]? = none := List.getElem?_eq_none (by omega)
  rw [scanStep_eq_tokenStep, hget, hnext, tokenStep_missing_value tok r h, bind_exit]

/-- C11. When the last token of the argument list, at an index `k ≥ 2`, is a flag that
takes a value (`-f`, `-D`, `-t`, `-n`, `-p`, `-e`, `-d` or a long form) and no loop body
before `k` ends the process, `GetUploadParameters` exits with 3, for the
integer flags too, in either mode and in every environment. -/
theorem GetUploadParameters_missing_value (env : Env) (args : List String)
    (isArchive : Bool) (k : Nat) (tok : String) (hk : 2 ≤ k) (hlast : k + 1 = args.length)
    (htok : args[k]? = some tok) (hflag : tok ∈ valueFlags)
    (hearlier : ∀ j r, 2 ≤ j → j < k → ∃ x, scanStep args j r = .ret x) :
    GetUploadParameters env args isArchive = .exit 3 := by
  have hscan := scanLoop_exit_at args k 3 (by omega)
    (fun r => scanStep_missing_value args k r tok htok hflag hlast)
    (args.length - 2) 2 {} hk (by omega) hearlier
  rw [GetUploadParameters_eq, hscan, bind_exit]

/-- Witness for C11: `prog upload -j -e` has the integer flag `-e` last and no file; it
exits with 3. -/
theorem GetUploadParameters_missing_value_witness :
    GetUploadParameters
      ⟨false, fun _ => none, "/upload/", "/app/config/config.json", "gokapi-cli.json"⟩
      ["prog", "upload", "-j", "-e"] false = .exit 3 :=
  GetUploadParameters_missing_value _ ["prog", "upload", "-j", "-e"] false 3 "-e"
    (by decide) (by decide) (by decide) (by decide)
    (fun j r h1 h2 => by
      interval_cases j
      exact ⟨_, rfl⟩)

/-- The clause of `-h` exits with 0. -/
theorem tokenStep_help (tok : String) (next : Option String) (r : UploadConfig)
    (h : tok = "-h" ∨ tok = "--help") : tokenStep tok next r = .exit 0 := by
  have hc : switchCase tok = .help := by
    rcases h with h | h <;> rw [h] <;> decide
  unfold tokenStep
  rw [hc]
  cases next <;> rfl

/-- C12. When the token at index 2 is `-h` or `--help`, `GetUploadParameters` exits with
0, whatever follows it, in either mode and in every environment: the process ends before
the requirement check is reached. -/
theorem GetUploadParameters_help (env : Env) (args : List String) (isArchive : Bool)
    (h : args[2]? = some "-h" ∨ args[2]? = some "--help") :
    GetUploadParameters env args isArchive = .exit 0 := by
  have hlen : 2 < args.length := by
    by_contra hge
    rw [List.getElem?_eq_none (by omega)] at h
    simp at h
  have hget : args.getD 2 "" = "-h" ∨ args.getD 2 "" = "--help" := by
    rw [List.getD_eq_getElem?_getD]
    rcases h with h | h <;> rw [h]
    · exact Or.inl rfl
    · exact Or.inr rfl
  have hstep : ∀ r, scanStep args 2 r = .exit 0 := by
    intro r
    rw [scanStep_eq_tokenStep, tokenStep_help _ _ _ hget, bind_exit]
  have hscan := scanLoop_exit_at args 2 0 hlen hstep (args.length - 2) 2 {} (le_refl _)
    (by omega) (fun j r h1 h2 => by omega)
  rw [GetUploadParameters_eq, hscan, bind_exit]

/-- Witness for C12: help first, then an invalid integer and no file. -/
theorem GetUploadParameters_help_witness :
    GetUploadParameters
      ⟨false, fun _ => none, "/upload/", "/app/config/config.json", "gokapi-cli.json"⟩
      ["prog", "upload-dir", "--help", "-e", "abc", "-f"] true = .exit 0 :=
  GetUploadParameters_help _ ["prog", "upload-dir", "--help", "-e", "abc", "-f"] true
    (Or.inr rfl)

/-! ### Container auto-discovery -/

/-- Single-file mode, one regular file already seen: found exactly when no further
regular file is listed. -/
theorem scanEntries_single_seen (env : Env) : ∀ (l : List DirEntry) (name : String),
    scanEntries env false l name true =
      if l.filter (fun e => e.IsRegular) = [] then (true, Join env.DockerFolderUpload name)
      else (false, "") := by
  intro l
  induction l with
  | nil => intro name; rfl
  | cons entry rest ih =>
    intro name
    cases hreg : entry.IsRegular with
    | true => simp [scanEntries, hreg]
    | false => simp [scanEntries, hreg, ih]

/-- Single-file mode from the start of the listing: found exactly when the listing has
one regular file, with the path of that file. -/
theorem scanEntries_single (env : Env) : ∀ (l : List DirEntry) (name : String),
    scanEntries env false l name false =
      match l.filter (fun e => e.IsRegular) with
      | [e] => (true, Join env.DockerFolderUpload e.Name)
      | _ => (false, "") := by
  intro l
  induction l with
  | nil => intro name; rfl
  | cons entry rest ih =>
    intro name
    cases hreg : entry.IsRegular with
    | true =>
      simp only [scanEntries, hreg, if_true, Bool.false_eq_true, if_false,
        scanEntries_single_seen, List.filter_cons_of_pos]
      cases hrest : rest.filter (fun e => e.IsRegular) with
      | nil => simp
      | cons a t => simp
    | false =>
      have hf : (entry :: rest).filter (fun e => e.IsRegular) =
          rest.filter (fun e => e.IsRegular) := by
        simp [List.filter_cons, hreg]
      simp only [scanEntries, hreg, Bool.false_eq_true, if_false, hf]
      exact ih name

/-- Archive mode: found exactly when the listing has a regular file, with the drop
folder as the path. -/
theorem scanEntries_archive (env : Env) : ∀ (l : List DirEntry) (name : String),
    scanEntries env true l name false =
      if l.any (fun e => e.IsRegular) then (true, env.DockerFolderUpload)
      else (false, "") := by
  intro l
  induction l with
  | nil => intro name; rfl
  | cons entry rest ih =>
    intro name
    cases hreg : entry.IsRegular with
    | true => simp [scanEntries, hreg]
    | false => simp [scanEntries, hreg, ih]

theorem getDockerUpload_listed (env : Env) (isArchive : Bool) (entries : List DirEntry)
    (hdocker : env.IsDockerInstance = true)
    (hlist : env.ReadDir env.DockerFolderUpload = some entries) :
    getDockerUpload env isArchive = scanEntries env isArchive entries "" false := by
  simp [getDockerUpload, hdocker, hlist]

/-- The scan of `prog upload` reads no token. -/
theorem GetUploadParameters_no_flags (env : Env) (mode : String) (isArchive : Bool) :
    GetUploadParameters env ["prog", mode] isArchive =
      if (checkRequiredUploadParameter env {} isArchive).1 = true
      then .ret (checkRequiredUploadParameter env {} isArchive).2
      else .exit 2 := by
  rw [GetUploadParameters_eq]
  rfl

/-- The requirement check on a config whose required field is empty, in a container. -/
theorem checkRequiredUploadParameter_discover (env : Env) (config : UploadConfig)
    (isArchive : Bool) (hreq : requiredField config isArchive = "")
    (hdocker : env.IsDockerInstance = true) :
    checkRequiredUploadParameter env config isArchive =
      if (getDockerUpload env isArchive).1 = true then
        (true, { config with File :=
          if isArchive then env.DockerFolderUpload else (getDockerUpload env isArchive).2 })
      else (false, config) := by
  unfold checkRequiredUploadParameter requiredField at *
  generalize getDockerUpload env isArchive = found
  obtain ⟨ok, uploadPath⟩ := found
  cases isArchive <;> cases ok <;> simp_all

/-- C13. In a container whose drop folder lists as `entries`, single-file discovery
reports found exactly when `entries` has one regular file; then the path is the drop
folder joined with the name of that file; with no or with several regular files the result
is not found with an empty path. On `prog upload`, `GetUploadParameters` returns the config
whose `File` is the joined path in the first case and exits with 2 in the second. -/
theorem getDockerUpload_single_file (env : Env) (entries : List DirEntry)
    (hdocker : env.IsDockerInstance = true)
    (hlist : env.ReadDir env.DockerFolderUpload = some entries) :
    ((getDockerUpload env false).1 = true ↔
      (entries.filter (fun e => e.IsRegular)).length = 1) ∧
    (∀ e, entries.filter (fun e => e.IsRegular) = [e] →
      getDockerUpload env false = (true, Join env.DockerFolderUpload e.Name)) ∧
    ((entries.filter (fun e => e.IsRegular)).length ≠ 1 →
      getDockerUpload env false = (false, "")) ∧
    (∀ e, entries.filter (fun e => e.IsRegular) = [e] →
      GetUploadParameters env ["prog", "upload"] false =
        .ret { File := Join env.DockerFolderUpload e.Name }) ∧
    ((entries.filter (fun e => e.IsRegular)).length ≠ 1 →
      GetUploadParameters env ["prog", "upload"] false = .exit 2) := by
  have hval := getDockerUpload_listed env false entries hdocker hlist
  rw [scanEntries_single] at hval
  have hone : ∀ e, entries.filter (fun e => e.IsRegular) = [e] →
      getDockerUpload env false = (true, Join env.DockerFolderUpload e.Name) := by
    intro e he
    rw [hval, he]
  have hnot : (entries.filter (fun e => e.IsRegular)).length ≠ 1 →
      getDockerUpload env false = (false, "") := by
    intro hlen
    rw [hval]
    cases hf : entries.filter (fun e => e.IsRegular) with
    | nil => rfl
    | cons a t =>
      cases t with
      | nil => rw [hf] at hlen; simp at hlen
      | cons b u => rfl
  have hcheck := checkRequiredUploadParameter_discover env {} false rfl hdocker
  refine ⟨?_, hone, hnot, ?_, ?_⟩
  · constructor
    · intro h
      by_contra hlen
      rw [hnot hlen] at h
      simp at h
    · intro hlen
      obtain ⟨e, he⟩ := List.length_eq_one.mp hlen
      rw [hone e he]
  · intro e he
    rw [GetUploadParameters_no_flags, hcheck, hone e he]
    rfl
  · intro hlen
    rw [GetUploadParameters_no_flags, hcheck, hnot hlen]
    rfl

/-- Witness for C13: a drop folder with the regular file `report.pdf` and a directory. -/
theorem getDockerUpload_single_file_witness :
    GetUploadParameters
      ⟨true, fun _ => some [⟨"sub", false⟩, ⟨"report.pdf", true⟩], "/upload/",
        "/app/config/config.json", "gokapi-cli.json"⟩ ["prog", "upload"] false =
      .ret { File := "/upload/report.pdf" } :=
  (getDockerUpload_single_file
    ⟨true, fun _ => some [⟨"sub", false⟩, ⟨"report.pdf", true⟩], "/upload/",
      "/app/config/config.json", "gokapi-cli.json"⟩
    [⟨"sub", false⟩, ⟨"report.pdf", true⟩] rfl rfl).2.2.2.1 ⟨"report.pdf", true⟩ (by decide)

/-- C14. In a container whose drop folder lists as `entries`, archive discovery reports
found exactly when `entries` has at least one regular file, however many; then the path
is the drop folder itself; when no entry is a regular file the result is not found with an
empty path. -/
theorem getDockerUpload_archive (env : Env) (entries : List DirEntry)
    (hdocker : env.IsDockerInstance = true)
    (hlist : env.ReadDir env.DockerFolderUpload = some entries) :
    ((getDockerUpload env true).1 = true ↔ ∃ e ∈ entries, e.IsRegular = true) ∧
    ((∃ e ∈ entries, e.IsRegular = true) →
      getDockerUpload env true = (true, env.DockerFolderUpload)) ∧
    ((∀ e ∈ entries, e.IsRegular = false) → getDockerUpload env true = (false, "")) := by
  have hval := getDockerUpload_listed env true entries hdocker hlist
  rw [scanEntries_archive] at hval
  have hsome : (∃ e ∈ entries, e.IsRegular = true) →
      getDockerUpload env true = (true, env.DockerFolderUpload) := by
    intro h
    rw [hval, if_pos (List.any_eq_true.mpr h)]
  have hnone : (∀ e ∈ entries, e.IsRegular = false) →
      getDockerUpload env true = (false, "") := by
    intro h
    have hany : ¬ (entries.any (fun e => e.IsRegular) = true) := by
      intro hc
      obtain ⟨e, he, hr⟩ := List.any_eq_true.mp hc
      rw [h e he] at hr
      exact absurd hr (by simp)
    rw [hval, if_neg hany]
  refine ⟨?_, hsome, hnone⟩
  constructor
  · intro h
    by_contra hno
    have hall : ∀ e ∈ entries, e.IsRegular = false := by
      intro e he
      cases hr : e.IsRegular with
      | false => rfl
      | true => exact absurd ⟨e, he, hr⟩ hno
    rw [hnone hall] at h
    simp at h
  · intro h
    rw [hsome h]

/-- Witness for C14: a drop folder with a directory and two regular files. -/
theorem getDockerUpload_archive_witness :
    getDockerUpload
      ⟨true, fun _ => some [⟨"sub", false⟩, ⟨"a.txt", true⟩, ⟨"b.txt", true⟩], "/upload/",
        "/app/config/config.json", "gokapi-cli.json"⟩ true = (true, "/upload/") :=
  (getDockerUpload_archive
    ⟨true, fun _ => some [⟨"sub", false⟩, ⟨"a.txt", true⟩, ⟨"b.txt", true⟩], "/upload/",
      "/app/config/config.json", "gokapi-cli.json"⟩
    [⟨"sub", false⟩, ⟨"a.txt", true⟩, ⟨"b.txt", true⟩] rfl rfl).2.1
    ⟨⟨"a.txt", true⟩, by decide, rfl⟩

/-- C15. Auto-discovery returns not found with an empty path, in both modes, outside a
container whatever the drop folder holds, and in a container when listing the drop folder
fails; the result of a failed listing is the result for an empty drop folder. -/
theorem getDockerUpload_not_found (env : Env) (isArchive : Bool) :
    (env.IsDockerInstance = false → getDockerUpload env isArchive = (false, "")) ∧
    (env.ReadDir env.DockerFolderUpload = none →
      getDockerUpload env isArchive = (false, "")) ∧
    (∀ other : Env, other.IsDockerInstance = true →
      other.ReadDir other.DockerFolderUpload = some [] →
      env.ReadDir env.DockerFolderUpload = none →
      getDockerUpload env isArchive = getDockerUpload other isArchive) := by
  have hfail : env.ReadDir env.DockerFolderUpload = none →
      getDockerUpload env isArchive = (false, "") := by
    intro h
    unfold getDockerUpload
    rw [h]
    split_ifs <;> rfl
  refine ⟨?_, hfail, ?_⟩
  · intro h
    simp [getDockerUpload, h]
  · intro other hdocker hempty hnone
    rw [hfail hnone, getDockerUpload_listed other isArchive [] hdocker hempty]
    rfl

/-- Witness for C15: a container whose drop folder cannot be listed, against a container
with an empty drop folder. -/
theorem getDockerUpload_not_found_witness :
    getDockerUpload
      ⟨true, fun _ => none, "/upload/", "/app/config/config.json", "gokapi-cli.json"⟩ false =
    getDockerUpload
      ⟨true, fun _ => some [], "/upload/", "/app/config/config.json", "gokapi-cli.json"⟩
      false :=
  (getDockerUpload_not_found
    ⟨true, fun _ => none, "/upload/", "/app/config/config.json", "gokapi-cli.json"⟩
    false).2.2
    ⟨true, fun _ => some [], "/upload/", "/app/config/config.json", "gokapi-cli.json"⟩
    rfl rfl rfl

/-- When the required field is not empty the check is satisfied and the config is not
touched. -/
theorem checkRequiredUploadParameter_supplied (env : Env) (config : UploadConfig)
    (isArchive : Bool) (h : requiredField config isArchive ≠ "") :
    checkRequiredUploadParameter env config isArchive = (true, config) := by
  unfold checkRequiredUploadParameter requiredField at *
  cases isArchive <;> simp_all

/-- C18. The requirement check writes `File` only, and only after a successful
discovery: when the required field is not empty the result is satisfied with the config
unchanged; when the check is unsatisfied the config is unchanged; when the required field
is empty, the deployment is a container and discovery finds something, the result is
satisfied with `File` set to the drop folder (archive mode) or to the discovered path
(single-file mode) and every other field, `Directory` too, unchanged. -/
theorem checkRequiredUploadParameter_effect (env : Env) (config : UploadConfig)
    (isArchive : Bool) :
    (requiredField config isArchive ≠ "" →
      checkRequiredUploadParameter env config isArchive = (true, config)) ∧
    ((checkRequiredUploadParameter env config isArchive).1 = false →
      (checkRequiredUploadParameter env config isArchive).2 = config) ∧
    (requiredField config isArchive = "" → env.IsDockerInstance = true →
      (getDockerUpload env isArchive).1 = true →
      checkRequiredUploadParameter env config isArchive =
        (true, { config with File :=
          if isArchive then env.DockerFolderUpload
          else (getDockerUpload env isArchive).2 })) ∧
    (checkRequiredUploadParameter env config isArchive).2 =
      { config with File := (checkRequiredUploadParameter env config isArchive).2.File } := by
  refine ⟨checkRequiredUploadParameter_supplied env config isArchive, ?_, ?_,
    checkRequiredUploadParameter_frame env config isArchive⟩
  · by_cases hreq : requiredField config isArchive = ""
    · cases hdocker : env.IsDockerInstance with
      | false =>
        rw [checkRequiredUploadParameter_outside env config isArchive hdocker]
        intro _; rfl
      | true =>
        rw [checkRequiredUploadParameter_discover env config isArchive hreq hdocker]
        by_cases hfound : (getDockerUpload env isArchive).1 = true
        · rw [if_pos hfound]
          intro h
          exact absurd h (by simp)
        · rw [if_neg hfound]
          intro _
          rfl
    · intro _
      rw [checkRequiredUploadParameter_supplied env config isArchive hreq]
  · intro hreq hdocker hfound
    rw [checkRequiredUploadParameter_discover env config isArchive hreq hdocker, if_pos hfound]

/-- Witness for C18: archive mode with `File` given but no `Directory`, in a container
whose drop folder holds a regular file: `File` becomes the drop folder. -/
theorem checkRequiredUploadParameter_effect_witness :
    checkRequiredUploadParameter
      ⟨true, fun _ => some [⟨"a.txt", true⟩], "/upload/", "/app/config/config.json",
        "gokapi-cli.json"⟩ { File := "x.txt", Password := "pw" } true =
      (true, { File := "/upload/", Password := "pw" }) :=
  (checkRequiredUploadParameter_effect
    ⟨true, fun _ => some [⟨"a.txt", true⟩], "/upload/", "/app/config/config.json",
      "gokapi-cli.json"⟩ { File := "x.txt", Password := "pw" } true).2.2.1 rfl rfl rfl

/-! ### Configuration file location -/

theorem getD_eq_iff_getElem? (args : List String) (i : Nat) (tok : String)
    (hi : i < args.length) : args.getD i "" = tok ↔ args[i]? = some tok := by
  rw [List.getD_eq_getElem?_getD, List.getElem?_eq_getElem hi]
  simp

theorem configLoop_none (args : List String) : ∀ (fuel i : Nat),
    (∀ j, i ≤ j → ¬ (args[j]? = some "-c" ∨ args[j]? = some "--configuration")) →
    configLoop args fuel i = .ret none := by
  intro fuel
  induction fuel with
  | zero => intro i _; rfl
  | succ fuel ih =>
    intro i hno
    unfold configLoop
    by_cases hi : i < args.length
    · have hnot : ¬ (args.getD i "" = "-c" ∨ args.getD i "" = "--configuration") := by
        rw [getD_eq_iff_getElem? args i _ hi, getD_eq_iff_getElem? args i _ hi]
        exact hno i (le_refl _)
      simp only [hi, if_true, hnot, if_false]
      exact ih (i + 1) (fun j hj => hno j (by omega))
    · rw [if_neg hi]

theorem configLoop_first (args : List String) (k : Nat)
    (hk : args[k]? = some "-c" ∨ args[k]? = some "--configuration") :
    ∀ (fuel i : Nat), i ≤ k → k < i + fuel →
      (∀ j, i ≤ j → j < k → ¬ (args[j]? = some "-c" ∨ args[j]? = some "--configuration")) →
      configLoop args fuel i =
        (getParameter args k >>= fun x => .ret (some (x.1, false))) := by
  have hklt : k < args.length := by
    by_contra hge
    rw [List.getElem?_eq_none (by omega)] at hk
    simp at hk
  intro fuel
  induction fuel with
  | zero => intro i h1 h2 _; omega
  | succ fuel ih =>
    intro i h1 h2 hno
    have hi : i < args.length := by omega
    unfold configLoop
    by_cases hik : i = k
    · subst hik
      have hyes : args.getD i "" = "-c" ∨ args.getD i "" = "--configuration" := by
        rw [getD_eq_iff_getElem? args i _ hi, getD_eq_iff_getElem? args i _ hi]
        exact hk
      simp only [hi, if_true, hyes]
      rcases getParameter_cases args i with hg | ⟨v, _, hg⟩ <;> rw [hg] <;> rfl
    · have hnot : ¬ (args.getD i "" = "-c" ∨ args.getD i "" = "--configuration") := by
        rw [getD_eq_iff_getElem? args i _ hi, getD_eq_iff_getElem? args i _ hi]
        exact hno i (le_refl _) (by omega)
      simp only [hi, if_true, hnot, if_false]
      exact ih (i + 1) (by omega) (by omega) (fun j hj1 hj2 => hno j (by omega) hj2)

theorem GetConfigLocation_eq (env : Env) (args : List String) :
    GetConfigLocation env args =
      (configLoop args (args.length - 2) 2 >>= fun o =>
        match o with
        | some found => .ret found
        | none =>
          if env.IsDockerInstance then .ret (env.DockerFolderConfigFile, true)
          else .ret (env.DefaultConfigFileName, true)) := by
  rfl

/-- C16. `GetConfigLocation`: when the first `-c` or `--configuration` at an index `≥ 2`
is followed by an argument, that argument is returned with `false`; when it is the last
argument, the process exits with 3; when no such token occurs from index 2 on, the result
is the container configuration path with `true` in a container and the default
configuration path with `true` otherwise. -/
theorem GetConfigLocation_spec (env : Env) (args : List String) :
    (∀ (k : Nat) (v : String), 2 ≤ k →
      (args[k]? = some "-c" ∨ args[k]? = some "--configuration") →
      (∀ j, 2 ≤ j → j < k → ¬ (args[j]? = some "-c" ∨ args[j]? = some "--configuration")) →
      args[k + 1]? = some v → GetConfigLocation env args = .ret (v, false)) ∧
    (∀ (k : Nat), 2 ≤ k →
      (args[k]? = some "-c" ∨ args[k]? = some "--configuration") →
      (∀ j, 2 ≤ j → j < k → ¬ (args[j]? = some "-c" ∨ args[j]? = some "--configuration")) →
      k + 1 = args.length → GetConfigLocation env args = .exit 3) ∧
    ((∀ j, 2 ≤ j → ¬ (args[j]? = some "-c" ∨ args[j]? = some "--configuration")) →
      GetConfigLocation env args =
        .ret (if env.IsDockerInstance then env.DockerFolderConfigFile
              else env.DefaultConfigFileName, true)) := by
  refine ⟨?_, ?_, ?_⟩
  · intro k v hk hflag hfirst hv
    have hklt : k < args.length := by
      by_contra hge
      rw [List.getElem?_eq_none (by omega)] at hflag
      simp at hflag
    rw [GetConfigLocation_eq, configLoop_first args k hflag _ 2 hk (by omega) hfirst,
      getParameter_of_next args k v hv]
    rfl
  · intro k hk hflag hfirst hlast
    rw [GetConfigLocation_eq, configLoop_first args k hflag _ 2 hk (by omega) hfirst,
      getParameter_of_last args k (by omega)]
    rfl
  · intro hno
    rw [GetConfigLocation_eq, configLoop_none args _ 2 hno]
    cases env.IsDockerInstance <;> rfl

/-- Witness for C16: `prog logout -c /path/to/config`. -/
theorem GetConfigLocation_spec_witness :
    GetConfigLocation
      ⟨false, fun _ => none, "/upload/", "/app/config/config.json", "gokapi-cli.json"⟩
      ["prog", "logout", "-c", "/path/to/config"] = .ret ("/path/to/config", false) :=
  (GetConfigLocation_spec _ ["prog", "logout", "-c", "/path/to/config"]).1 2
    "/path/to/config" (by decide) (by decide) (fun j h1 h2 => by omega) (by decide)

/-! ### Unrecognised tokens -/

theorem tokenStep_unrecognised (t : String) (next : Option String) (r : UploadConfig)
    (ht : t ∉ recognisedFlags) : tokenStep t next r = .ret r := by
  unfold tokenStep
  rw [switchCase_unrecognised t ht]
  cases next <;> rfl

/-- A token outside the labels of the value-taking clauses selects a clause that does not
call `getParameter`. -/
theorem switchCase_no_value (tok : String) (h : tok ∉ valueFlags) :
    switchCase tok = .json ∨ switchCase tok = .disableE2e ∨ switchCase tok = .help ∨
      switchCase tok = .noCase := by
  simp only [valueFlags, List.mem_cons, List.mem_singleton, List.not_mem_nil,
    or_false, not_or] at h
  obtain ⟨h1, h2, h3, h4, h5, h6, h7, h8, h9, h10, h11, h12, h13, h14⟩ := h
  unfold switchCase
  simp only [h1, h2, h3, h4, h5, h6, h7, h8, h9, h10, h11, h12, h13, h14, or_self, if_false]
  split_ifs <;> simp

/-- The clause of a token that takes no value does not look at the next token. -/
theorem tokenStep_next_irrelevant (tok : String) (n1 n2 : Option String) (r : UploadConfig)
    (h : tok ∉ valueFlags) : tokenStep tok n1 r = tokenStep tok n2 r := by
  unfold tokenStep
  rcases switchCase_no_value tok h with hc | hc | hc | hc <;> rw [hc] <;>
    cases n1 <;> cases n2 <;> rfl

theorem scanTokens_cons (tok : String) (rest : List String) (r : UploadConfig) :
    scanTokens (tok :: rest) r = (tokenStep tok rest.head? r >>= scanTokens rest) := rfl

/-- Inserting an unrecognised token into the tokens to be scanned, anywhere but right
after a flag that takes a value, does not change the outcome of the scan. -/
theorem scanTokens_insert (t : String) (post : List String) (ht : t ∉ recognisedFlags) :
    ∀ (pre : List String) (r : UploadConfig),
      (∀ tok, pre.getLast? = some tok → tok ∉ valueFlags) →
      scanTokens (pre ++ t :: post) r = scanTokens (pre ++ post) r := by
  intro pre
  induction pre with
  | nil =>
    intro r _
    show scanTokens (t :: post) r = scanTokens post r
    rw [scanTokens_cons, tokenStep_unrecognised t _ r ht, bind_ret]
  | cons a rest ih =>
    intro r hlast
    cases rest with
    | nil =>
      have ha : a ∉ valueFlags := hlast a rfl
      show scanTokens (a :: t :: post) r = scanTokens (a :: post) r
      rw [scanTokens_cons a (t :: post), scanTokens_cons a post,
        tokenStep_next_irrelevant a (t :: post).head? post.head? r ha]
      congr 1
      funext r1
      rw [scanTokens_cons, tokenStep_unrecognised t _ r1 ht, bind_ret]
    | cons b rest2 =>
      have hrest : ∀ tok, (b :: rest2).getLast? = some tok → tok ∉ valueFlags := by
        intro tok htok
        exact hlast tok (by rw [List.getLast?_cons_cons]; exact htok)
      show scanTokens (a :: ((b :: rest2) ++ t :: post)) r =
        scanTokens (a :: ((b :: rest2) ++ post)) r
      rw [scanTokens_cons a, scanTokens_cons a]
      have hh1 : ((b :: rest2) ++ t :: post).head? = some b := rfl
      have hh2 : ((b :: rest2) ++ post).head? = some b := rfl
      rw [hh1, hh2]
      congr 1
      funext r1
      exact ih r1 hrest

/-- A scan that returns does not end on a flag that takes a value. -/
theorem scanTokens_ret_last : ∀ (l : List String) (r r1 : UploadConfig),
    scanTokens l r = .ret r1 → ∀ tok, l.getLast? = some tok → tok ∉ valueFlags := by
  intro l
  induction l with
  | nil => intro r r1 _ tok h; simp at h
  | cons a rest ih =>
    intro r r1 h tok htok
    cases rest with
    | nil =>
      simp only [List.getLast?_singleton, Option.some.injEq] at htok
      subst htok
      intro hmem
      rw [scanTokens_cons] at h
      have hx : tokenStep a ([] : List String).head? r = .exit 3 :=
        tokenStep_missing_value a r hmem
      rw [hx, bind_exit] at h
      exact absurd h (by simp)
    | cons b rest2 =>
      rw [List.getLast?_cons_cons] at htok
      rw [scanTokens_cons] at h
      cases hs : tokenStep a (b :: rest2).head? r with
      | exit c => rw [hs, bind_exit] at h; exact absurd h (by simp)
      | ret r2 =>
        rw [hs, bind_ret] at h
        exact ih r2 r1 h tok htok

/-- C17. Unrecognised tokens are ignored: when `GetUploadParameters` returns a config on
an argument list, inserting a token `t` that is not a recognised flag at an index `≥ 2`
whose predecessor (from index 2 on) is not a flag that takes a value, or appending `t` at
the end of the list, gives the same returned config. -/
theorem GetUploadParameters_unrecognised_ignored (env : Env) (args : List String)
    (t : String) (isArchive : Bool) (cfg : UploadConfig) (ht : t ∉ recognisedFlags)
    (hret : GetUploadParameters env args isArchive = .ret cfg) :
    (∀ (prog mode : String) (pre post : List String),
      args = prog :: mode :: (pre ++ post) →
      (∀ tok, pre.getLast? = some tok → tok ∉ valueFlags) →
      GetUploadParameters env (prog :: mode :: (pre ++ t :: post)) isArchive = .ret cfg) ∧
    GetUploadParameters env (args ++ [t]) isArchive = .ret cfg := by
  constructor
  · intro prog mode pre post hargs hprev
    rw [← hret, hargs, GetUploadParameters_eq_tokens, GetUploadParameters_eq_tokens]
    simp only [List.drop_succ_cons, List.drop_zero]
    rw [scanTokens_insert t post ht pre {} hprev]
  · rw [← hret, GetUploadParameters_eq_tokens, GetUploadParameters_eq_tokens]
    by_cases hlen : 2 ≤ args.length
    · rw [List.drop_append_of_le_length hlen]
      cases hs : scanTokens (args.drop 2) {} with
      | exit c =>
        rw [GetUploadParameters_eq_tokens, hs, bind_exit] at hret
        exact absurd hret (by simp)
      | ret r =>
        have hlast := scanTokens_ret_last (args.drop 2) {} r hs
        have hins := scanTokens_insert t [] ht (args.drop 2) {} hlast
        rw [List.append_nil] at hins
        rw [hins, hs]
    · have h1 : (args ++ [t]).drop 2 = [] :=
        List.drop_eq_nil_of_le (by rw [List.length_append]; simp; omega)
      have h2 : args.drop 2 = [] := List.drop_eq_nil_of_le (by omega)
      rw [h1, h2]

/-- Witness for C17: `--verbose` inserted after the value `a.txt` and at the end of
`prog upload -f a.txt -j`. -/
theorem GetUploadParameters_unrecognised_ignored_witness :
    GetUploadParameters
      ⟨false, fun _ => none, "/upload/", "/app/config/config.json", "gokapi-cli.json"⟩
      ["prog", "upload", "-f", "a.txt", "--verbose", "-j"] false =
        .ret { File := "a.txt", JsonOutput := true } ∧
    GetUploadParameters
      ⟨false, fun _ => none, "/upload/", "/app/config/config.json", "gokapi-cli.json"⟩
      ["prog", "upload", "-f", "a.txt", "-j", "--verbose"] false =
        .ret { File := "a.txt", JsonOutput := true } :=
  have h := GetUploadParameters_unrecognised_ignored
    ⟨false, fun _ => none, "/upload/", "/app/config/config.json", "gokapi-cli.json"⟩
    ["prog", "upload", "-f", "a.txt", "-j"] "--verbose" false
    { File := "a.txt", JsonOutput := true } (by decide) (by decide)
  ⟨h.1 "prog" "upload" ["-f", "a.txt"] ["-j"] rfl (by decide), h.2⟩

/-! ### File and directory -/

theorem switchCase_file_iff (arg : String) :
    switchCase arg = .file ↔ arg = "-f" ∨ arg = "--file" := by
  constructor
  · intro h
    unfold switchCase at h
    split_ifs at h with h1 h2 h3
    exact h3
  · rintro (h | h) <;> rw [h] <;> decide

theorem switchCase_directory_iff (arg : String) :
    switchCase arg = .directory ↔ arg = "-D" ∨ arg = "--directory" := by
  constructor
  · intro h
    unfold switchCase at h
    split_ifs at h with h1 h2 h3 h4 h5 h6 h7
    exact h7
  · rintro (h | h) <;> rw [h] <;> decide

/-- A loop body that is not the clause of `-f` leaves `File` as it was. -/
theorem tokenStep_File_frame (tok : String) (next : Option String) (r r1 : UploadConfig)
    (h : tokenStep tok next r = .ret r1) (hc : switchCase tok ≠ .file) :
    r1.File = r.File := by
  unfold tokenStep at h
  cases hk : switchCase tok <;> cases next <;> rw [hk] at h <;>
    simp only [pure_eq_ret] at h <;>
    first
      | exact absurd hk hc
      | (cases h; rfl)
      | exact absurd h (by simp)
      | (rename_i v
         rcases requireInt_cases v with ⟨_, hq⟩ | ⟨n, _, hq⟩ <;>
           simp only [hq, bind_ret, bind_exit] at h <;>
           first | (cases h; rfl) | exact absurd h (by simp))

/-- A loop body that is not the clause of `-D` leaves `Directory` as it was. -/
theorem tokenStep_Directory_frame (tok : String) (next : Option String)
    (r r1 : UploadConfig) (h : tokenStep tok next r = .ret r1)
    (hc : switchCase tok ≠ .directory) : r1.Directory = r.Directory := by
  unfold tokenStep at h
  cases hk : switchCase tok <;> cases next <;> rw [hk] at h <;>
    simp only [pure_eq_ret] at h <;>
    first
      | exact absurd hk hc
      | (cases h; rfl)
      | exact absurd h (by simp)
      | (rename_i v
         rcases requireInt_cases v with ⟨_, hq⟩ | ⟨n, _, hq⟩ <;>
           simp only [hq, bind_ret, bind_exit] at h <;>
           first | (cases h; rfl) | exact absurd h (by simp))

theorem scanTokens_File_frame : ∀ (l : List String) (r r1 : UploadConfig),
    scanTokens l r = .ret r1 → (∀ tok ∈ l, tok ≠ "-f" ∧ tok ≠ "--file") →
    r1.File = r.File := by
  intro l
  induction l with
  | nil => intro r r1 h _; cases h; rfl
  | cons a rest ih =>
    intro r r1 h hno
    rw [scanTokens_cons] at h
    cases hs : tokenStep a rest.head? r with
    | exit c => rw [hs, bind_exit] at h; exact absurd h (by simp)
    | ret r2 =>
      rw [hs, bind_ret] at h
      have ha := hno a (List.mem_cons_self _ _)
      have hc : switchCase a ≠ .file := fun e =>
        ((switchCase_file_iff a).mp e).elim ha.1 ha.2
      rw [ih r2 r1 h (fun tok htok => hno tok (List.mem_cons_of_mem _ htok)),
        tokenStep_File_frame a _ r r2 hs hc]

theorem scanTokens_Directory_frame : ∀ (l : List String) (r r1 : UploadConfig),
    scanTokens l r = .ret r1 → (∀ tok ∈ l, tok ≠ "-D" ∧ tok ≠ "--directory") →
    r1.Directory = r.Directory := by
  intro l
  induction l with
  | nil => intro r r1 h _; cases h; rfl
  | cons a rest ih =>
    intro r r1 h hno
    rw [scanTokens_cons] at h
    cases hs : tokenStep a rest.head? r with
    | exit c => rw [hs, bind_exit] at h; exact absurd h (by simp)
    | ret r2 =>
      rw [hs, bind_ret] at h
      have ha := hno a (List.mem_cons_self _ _)
      have hc : switchCase a ≠ .directory := fun e =>
        ((switchCase_directory_iff a).mp e).elim ha.1 ha.2
      rw [ih r2 r1 h (fun tok htok => hno tok (List.mem_cons_of_mem _ htok)),
        tokenStep_Directory_frame a _ r r2 hs hc]

/-- Counterexample for C19: with both `-f` and `-D` passed, single-file mode returns a
config whose `Directory` is set, and archive mode returns one whose `File` is set although
nothing was discovered. -/
theorem GetUploadParameters_both_fields :
    GetUploadParameters
      ⟨false, fun _ => none, "/upload/", "/app/config/config.json", "gokapi-cli.json"⟩
      ["prog", "upload", "-f", "a.txt", "-D", "docs"] false =
        .ret { File := "a.txt", Directory := "docs" } ∧
    GetUploadParameters
      ⟨false, fun _ => none, "/upload/", "/app/config/config.json", "gokapi-cli.json"⟩
      ["prog", "upload-dir", "-f", "a.txt", "-D", "docs"] true =
        .ret { File := "a.txt", Directory := "docs" } ∧
    ({ File := "a.txt", Directory := "docs" } : UploadConfig).Directory ≠ "" ∧
    ({ File := "a.txt", Directory := "docs" } : UploadConfig).File ≠ "" := by
  decide

/-- C19, amended. In a config returned by `GetUploadParameters`: in single-file mode
`Directory` is empty when no `-D` or `--directory` token occurs from index 2 on; in archive
mode, when no `-f` or `--file` token occurs from index 2 on, `File` is empty unless
auto-discovery substituted the drop folder for it (then `Directory` is empty). -/
theorem GetUploadParameters_mode_field (env : Env) (args : List String) (isArchive : Bool)
    (cfg : UploadConfig) (hret : GetUploadParameters env args isArchive = .ret cfg) :
    (isArchive = false → (∀ tok ∈ args.drop 2, tok ≠ "-D" ∧ tok ≠ "--directory") →
      cfg.Directory = "") ∧
    (isArchive = true → (∀ tok ∈ args.drop 2, tok ≠ "-f" ∧ tok ≠ "--file") →
      cfg.File = "" ∨
      (cfg.Directory = "" ∧ env.IsDockerInstance = true ∧
        (getDockerUpload env true).1 = true ∧ cfg.File = env.DockerFolderUpload)) := by
  obtain ⟨r, hscan, hok, hcfg⟩ := GetUploadParameters_ret env args isArchive cfg hret
  rw [scanLoop_eq_scanTokens args _ 2 {} (le_refl _)] at hscan
  have hframe := checkRequiredUploadParameter_frame env (afterScan r) isArchive
  constructor
  · intro _ hno
    have hdir : r.Directory = "" := scanTokens_Directory_frame _ _ _ hscan hno
    have h1 : cfg.Directory = (afterScan r).Directory := by rw [hcfg, hframe]
    have h2 := afterScan_requiredField r true
    simp only [requiredField, if_true] at h2
    rw [h1, h2, hdir]
  · intro harch hno
    subst harch
    have hfile : r.File = "" := scanTokens_File_frame _ _ _ hscan hno
    have h2 := afterScan_requiredField r false
    simp only [requiredField, Bool.false_eq_true, if_false] at h2
    have hafile : (afterScan r).File = "" := by rw [h2, hfile]
    by_cases hreq : requiredField (afterScan r) true = ""
    · right
      have hdirempty : (afterScan r).Directory = "" := by
        simpa [requiredField] using hreq
      cases hdocker : env.IsDockerInstance with
      | false =>
        rw [checkRequiredUploadParameter_outside env _ true hdocker] at hok
        simp [hreq] at hok
      | true =>
        rw [checkRequiredUploadParameter_discover env _ true hreq hdocker] at hok hcfg
        by_cases hfound : (getDockerUpload env true).1 = true
        · rw [if_pos hfound] at hcfg
          rw [hcfg]
          exact ⟨hdirempty, rfl, hfound, rfl⟩
        · rw [if_neg hfound] at hok
          exact absurd hok (by simp)
    · left
      have hsame : checkRequiredUploadParameter env (afterScan r) true =
          (true, afterScan r) :=
        checkRequiredUploadParameter_supplied env (afterScan r) true hreq
      rw [hcfg, hsame]
      exact hafile

/-- Witness for C19, amended: `prog upload -f a.txt` has no `-D` token and returns a
config whose `Directory` is empty. -/
theorem GetUploadParameters_mode_field_witness :
    GetUploadParameters
      ⟨false, fun _ => none, "/upload/", "/app/config/config.json", "gokapi-cli.json"⟩
      ["prog", "upload", "-f", "a.txt"] false = .ret { File := "a.txt" } ∧
    ({ File := "a.txt" } : UploadConfig).Directory = "" :=
  ⟨by decide,
   (GetUploadParameters_mode_field
    ⟨false, fun _ => none, "/upload/", "/app/config/config.json", "gokapi-cli.json"⟩
    ["prog", "upload", "-f", "a.txt"] false { File := "a.txt" } (by decide)).1 rfl
    (by decide)⟩

/-! ### The parent-directory segment -/

theorem replaceChar_eq_dot (c : Char) (h : replaceChar c = '.') : c = '.' := by
  unfold replaceChar at h
  split_ifs at h
  · exact absurd h (by decide)
  · exact h

theorem replaceIllegal_eq_dotdot (s : String) : replaceIllegal s = ".." ↔ s = ".." := by
  constructor
  · intro h
    have hd : s.data.map replaceChar = ['.', '.'] := by
      rw [← replaceIllegal_data, h]
    apply String.ext
    show s.data = ['.', '.']
    rcases hs : s.data with _ | ⟨a, _ | ⟨b, _ | ⟨c, u⟩⟩⟩
    · rw [hs] at hd
      exact absurd hd (by simp)
    · rw [hs] at hd
      exact absurd hd (by simp)
    · rw [hs] at hd
      simp only [List.map_cons, List.map_nil, List.cons.injEq, and_true] at hd
      rw [replaceChar_eq_dot a hd.1, replaceChar_eq_dot b hd.2]
    · rw [hs] at hd
      exact absurd hd (by simp)
  · intro h
    rw [h]
    decide

/-- Counterexample for C20: the names `..`, `foo/..` and ` .. ` are sanitised to the
parent-directory segment `..`. -/
theorem Sanitize_dotdot :
    Sanitize ".." = ".." ∧ Sanitize "foo/.." = ".." ∧ Sanitize " .. " = ".." := by
  decide

/-- C20, amended. For every name, the sanitised name is a single path segment in that it
holds no `/`; it is the parent-directory segment `..` exactly when the name is not empty
and its final path segment, trimmed of white space, is `..`. -/
theorem Sanitize_single_segment (name : String) :
    '/' ∉ (Sanitize name).data ∧
    (Sanitize name = ".." ↔ (name ≠ "" ∧ TrimSpace (Base name) = "..")) := by
  constructor
  · intro hmem
    have h := (sanitiseFilename_clean { FileName := name }).1 '/' hmem
    exact absurd h (by decide)
  · by_cases hne : name = ""
    · subst hne
      constructor
      · intro h
        exact absurd h (by decide)
      · intro h
        exact absurd rfl h.1
    · have hval : Sanitize name = replaceIllegal (TrimSpace (Base name)) :=
        sanitiseFilename_FileName { FileName := name } hne
      rw [hval, replaceIllegal_eq_dotdot]
      constructor
      · intro h
        exact ⟨hne, h⟩
      · intro h
        exact h.2

end cliflags
